import Mathlib

/-!
Verification of the fftpeg download-dedup-and-organize pipeline.

This file gives a shallow embedding, in Lean 4, of the core of the fftpeg
repository: the SQLite-backed download index (`src/utils/database.py`), the
symlink organization engine (`src/utils/symlink_manager.py`), the configuration
reader (`src/config/settings.py`) and the download pipeline
(`src/utils/downloader.py`).  Each Python function is translated into an
executable Lean definition over explicit state; the theorems at the end of the
file settle the specified properties of the pipeline.

Modelling conventions:
- Filesystem paths are lists of path components (`FsPath`); all stored paths
  are absolute.  Directories are implicit (the Python code creates parent
  directories with `mkdir(parents=True, exist_ok=True)` before every write, so
  directory existence never fails in the modelled flows); the filesystem is an
  association list from paths to entries, where an entry is a regular file
  (with byte contents) or a symbolic link (with a stored absolute or relative
  target, mirroring `Path.symlink_to`).
- SQLite tables are lists of rows plus AUTOINCREMENT counters.
- The external `yt-dlp` tool is an oracle passed to the pipeline: either a
  `DownloadError` message or the fetched file (path, bytes, metadata).
- SHA-256 is an opaque parameter `hashBytes : List Nat → String`; the claims
  depend only on it being a function of the byte contents.
- Points where the Python code can raise to its caller are modelled by an
  explicit fault environment `FaultEnv`; `Except.error` in the result of
  `download` models an uncaught Python exception propagating to the caller.
-/

set_option autoImplicit false
set_option synthInstance.maxHeartbeats 400000

namespace Fftpeg

/-! ## Filesystem model -/

/-- A filesystem path, as a list of components; paths stored in the
filesystem map are absolute. -/
abbrev FsPath := List String

/-- The target stored inside a symbolic link: either an absolute path or a
relative one (relative to the link's parent directory), as with
`Path.symlink_to`. -/
inductive LinkTarget where
  | abs (p : FsPath)
  | rel (p : List String)
  deriving DecidableEq, Repr

/-- A filesystem entry: a regular file with byte contents, or a symlink. -/
inductive FsEntry where
  | file (bytes : List Nat)
  | symlink (target : LinkTarget)
  deriving DecidableEq, Repr

/-- The filesystem: an association list from absolute paths to entries. -/
abbrev Fs := List (FsPath × FsEntry)

/-- Look up the entry stored at a path. -/
def lookupFs : Fs → FsPath → Option FsEntry
  | [], _ => none
  | kv :: rest, p => if kv.1 = p then some kv.2 else lookupFs rest p

/-- `Path.unlink` / deleting the entry at a path. -/
def fsRemove (fs : Fs) (p : FsPath) : Fs :=
  fs.filter (fun kv => decide (kv.1 ≠ p))

/-- Writing an entry at a path (used for the fetched file and for
`symlink_to`; any previous entry at the path is replaced). -/
def fsWrite (fs : Fs) (p : FsPath) (e : FsEntry) : Fs :=
  fsRemove fs p ++ [(p, e)]

/-- Path normalization: resolve `..` components left to right (the OS does
this when following a relative symlink target).  The accumulator holds the
already-processed components in reverse. -/
def normalizeAux : List String → List String → List String
  | acc, [] => acc.reverse
  | acc, c :: rest =>
    if c = ".." then normalizeAux acc.tail rest
    else normalizeAux (c :: acc) rest

/-- Normalize a path by resolving `..` components. -/
def normalize (p : FsPath) : FsPath := normalizeAux [] p

/-- Length of the longest common component prefix of two paths
(as `os.path.relpath` computes it). -/
def commonPrefixLen : List String → List String → Nat
  | a :: as, b :: bs => if a = b then commonPrefixLen as bs + 1 else 0
  | _, _ => 0

/-- `os.path.relpath(src, start)`: walk up out of `start` to the common
ancestor, then down into `src`. -/
def relpath (src start : FsPath) : List String :=
  let k := commonPrefixLen src start
  List.replicate (start.length - k) ".." ++ src.drop k

/-- The path one resolution step of a symlink at `p` with stored target `t`
leads to. -/
def hopTarget (p : FsPath) (t : LinkTarget) : FsPath :=
  match t with
  | .abs a => normalize a
  | .rel r => normalize (p.dropLast ++ r)

/-- Resolve a path through symlinks, with fuel bounding the chain length. -/
def resolvePath (fs : Fs) : Nat → FsPath → Option FsPath
  | 0, _ => none
  | fuel + 1, p =>
    match lookupFs fs p with
    | some (.file _) => some p
    | some (.symlink t) => resolvePath fs fuel (hopTarget p t)
    | none => none

/-- `Path.exists()`: the path resolves (through symlinks) to a real file. -/
def pathExists (fs : Fs) (p : FsPath) : Bool :=
  (resolvePath fs (fs.length + 1) p).isSome

/-- `Path.is_symlink()`: the entry at the path is a symlink (broken or not). -/
def isSymlinkAt (fs : Fs) (p : FsPath) : Bool :=
  match lookupFs fs p with
  | some (.symlink _) => true
  | _ => false

/-- `Path.name`: the final path component. -/
def lastComp (p : FsPath) : String := p.getLast?.getD ""

/-! ## SymlinkManager (`src/utils/symlink_manager.py`) -/

/-- `SymlinkManager.create_symlink`: remove an existing symlink at the link
path; refuse (returning `false`) if a non-symlink entry occupies it; otherwise
create a relative symlink to `src`.  Returns the new filesystem and the
Python return value. -/
def create_symlink (fs : Fs) (src link : FsPath) : Fs × Bool :=
  if isSymlinkAt fs link then
    let fs1 := fsRemove fs link
    (fsWrite fs1 link (.symlink (.rel (relpath src link.dropLast))), true)
  else if (lookupFs fs link).isSome then
    (fs, false)
  else
    (fsWrite fs link (.symlink (.rel (relpath src link.dropLast))), true)

/-- The link path `SymlinkManager.organize_by_source` computes. -/
def sourceLinkPath (base : FsPath) (source : String) (filepath : FsPath) : FsPath :=
  base ++ ["by-source", source, lastComp filepath]

/-- The link path `SymlinkManager.organize_by_tag` computes. -/
def tagLinkPath (base : FsPath) (tag : String) (filepath : FsPath) : FsPath :=
  base ++ ["by-tag", tag, lastComp filepath]

/-- A download date, to the precision the organizer uses. -/
structure DateYM where
  year : Nat
  month : Nat
  deriving DecidableEq, Repr

/-- `date.strftime("%Y-%m")`, with the month zero-padded to two digits. -/
def formatYM (d : DateYM) : String :=
  toString d.year ++ "-" ++ (if d.month < 10 then "0" ++ toString d.month else toString d.month)

/-- The link path `SymlinkManager.organize_by_date` computes. -/
def dateLinkPath (base : FsPath) (d : DateYM) (filepath : FsPath) : FsPath :=
  base ++ ["by-date", formatYM d, lastComp filepath]

/-- `SymlinkManager.organize_by_source`. -/
def organize_by_source (fs : Fs) (base : FsPath) (filepath : FsPath) (source : String) :
    Fs × Bool :=
  create_symlink fs filepath (sourceLinkPath base source filepath)

/-- `SymlinkManager.organize_by_tag`. -/
def organize_by_tag (fs : Fs) (base : FsPath) (filepath : FsPath) (tag : String) :
    Fs × Bool :=
  create_symlink fs filepath (tagLinkPath base tag filepath)

/-- `SymlinkManager.organize_by_date` (the caller always passes a date in the
pipeline, so the `date is None` default is not modelled). -/
def organize_by_date (fs : Fs) (base : FsPath) (filepath : FsPath) (d : DateYM) :
    Fs × Bool :=
  create_symlink fs filepath (dateLinkPath base d filepath)

/-- Result dictionary of `SymlinkManager.organize_file`; an absent key is
`none`. -/
structure OrganizeResult where
  sourceRes : Option Bool
  tagRes : Option (List (String × Bool))
  dateRes : Option Bool
  deriving DecidableEq, Repr

/-- The `for tag in tags` loop of `organize_file`. -/
def organizeTagsLoop (base : FsPath) (filepath : FsPath) :
    Fs → List String → Fs × List (String × Bool)
  | fs, [] => (fs, [])
  | fs, t :: rest =>
    let res := organize_by_tag fs base filepath t
    let rec_ := organizeTagsLoop base filepath res.1 rest
    (rec_.1, (t, res.2) :: rec_.2)

/-- `SymlinkManager.organize_file`. -/
def organize_file (fs : Fs) (base : FsPath) (filepath : FsPath) (source : String)
    (tags : List String) (date : DateYM)
    (organizeSource organizeTags organizeDate : Bool) : Fs × OrganizeResult :=
  let s1 :=
    if organizeSource then
      let r := organize_by_source fs base filepath source
      (r.1, some r.2)
    else (fs, none)
  let s2 :=
    if organizeTags then
      let r := organizeTagsLoop base filepath s1.1 tags
      (r.1, some r.2)
    else (s1.1, none)
  let s3 :=
    if organizeDate then
      let r := organize_by_date s2.1 base filepath date
      (r.1, some r.2)
    else (s2.1, none)
  (s3.1, ⟨s1.2, s2.2, s3.2⟩)

/-- Paths of the entries `dir_path.rglob("*")` visits: every stored path
strictly below the directory, in filesystem order. -/
def pathsUnder (fs : Fs) (d : FsPath) : List FsPath :=
  (fs.map Prod.fst).filter (fun p => decide (d <+: p) && decide (d ≠ p))

/-- One iteration of the sweep loop: unlink the visited path when it is a
symlink whose target no longer resolves. -/
def sweepStep (f : Fs) (p : FsPath) : Fs :=
  if isSymlinkAt f p && !(pathExists f p) then fsRemove f p else f

/-- Sweep one directory tree. -/
def sweepDir (f : Fs) (d : FsPath) : Fs :=
  (pathsUnder f d).foldl sweepStep f

/-- `SymlinkManager.remove_broken_symlinks`.  The second component is the
Python return value (the function body has no `return` statement, so it
returns `None`). -/
def remove_broken_symlinks (fs : Fs) (base : FsPath) (dir? : Option FsPath) :
    Fs × Option Nat :=
  let dirs := match dir? with
    | some d => [d]
    | none => [base ++ ["by-source"], base ++ ["by-tag"], base ++ ["by-date"]]
  (dirs.foldl sweepDir fs, none)

/-! ## Database (`src/utils/database.py`) -/

/-- One row of the `downloads` table.  `download_date` is filled by SQLite
(`DEFAULT CURRENT_TIMESTAMP`) and never read by the core, so it is omitted. -/
structure Row where
  id : Nat
  url : String
  source : String
  filepath : FsPath
  filename : String
  hash : Option String
  size : Option Nat
  duration : Option Nat
  codec : Option String
  resolution : Option String
  title : Option String
  description : Option String
  thumbnailUrl : Option String
  uploader : Option String
  deriving DecidableEq, Repr

/-- One row of the `file_tags` junction table (`assigned_date` is filled by
SQLite and never read by the core, so it is omitted). -/
structure FileTag where
  fileId : Nat
  tagId : Nat
  autoAssigned : Bool
  deriving DecidableEq, Repr

/-- The SQLite database state: the three tables the core reads and writes,
with AUTOINCREMENT counters for the integer primary keys. -/
structure Database where
  downloads : List Row
  nextDownloadId : Nat
  tags : List (Nat × String)
  nextTagId : Nat
  fileTags : List FileTag
  deriving DecidableEq, Repr

/-- The metadata dict `VideoDownloader.download` assembles before `PERSIST`. -/
structure Metadata where
  hash : Option String
  size : Option Nat
  duration : Option Nat
  codec : Option String
  resolution : Option String
  title : Option String
  description : Option String
  thumbnail : Option String
  uploader : Option String
  deriving DecidableEq, Repr

/-- `Database.check_url_exists`: `SELECT * FROM downloads WHERE url = ?`,
first matching row. -/
def check_url_exists (db : Database) (url : String) : Option Row :=
  db.downloads.find? (fun r => decide (r.url = url))

/-- `Database.check_hash_exists`: `SELECT * FROM downloads WHERE hash = ?`,
first matching row. -/
def check_hash_exists (db : Database) (h : String) : Option Row :=
  db.downloads.find? (fun r => decide (r.hash = some h))

/-- A `sqlite3.IntegrityError` raised by a UNIQUE constraint. -/
structure ConstraintViolation where
  message : String
  deriving DecidableEq, Repr

/-- The row the `INSERT INTO downloads` statement stores. -/
def mkRow (db : Database) (url source : String) (filepath : FsPath)
    (md : Metadata) : Row :=
  { id := db.nextDownloadId
    url := url
    source := source
    filepath := filepath
    filename := lastComp filepath
    hash := md.hash
    size := md.size
    duration := md.duration
    codec := md.codec
    resolution := md.resolution
    title := md.title
    description := md.description
    thumbnailUrl := md.thumbnail
    uploader := md.uploader }

/-- `Database.add_download`: `INSERT INTO downloads ...`.  The schema declares
`url TEXT UNIQUE` and `filepath TEXT UNIQUE` (and no UNIQUE constraint on
`hash`), so the insert fails exactly when the url or the filepath is already
present. -/
def add_download (db : Database) (url source : String) (filepath : FsPath)
    (md : Metadata) : Except ConstraintViolation (Database × Nat) :=
  if db.downloads.any (fun r => decide (r.url = url)) then
    .error ⟨"UNIQUE constraint failed: downloads.url"⟩
  else if db.downloads.any (fun r => decide (r.filepath = filepath)) then
    .error ⟨"UNIQUE constraint failed: downloads.filepath"⟩
  else
    .ok ({ db with downloads := db.downloads ++ [mkRow db url source filepath md],
                   nextDownloadId := db.nextDownloadId + 1 },
         db.nextDownloadId)

/-- `Database.get_or_create_tag`: return the id of an existing tag row, else
insert a fresh one. -/
def get_or_create_tag (db : Database) (name : String) : Database × Nat :=
  match db.tags.find? (fun t => decide (t.2 = name)) with
  | some t => (db, t.1)
  | none =>
      ({ db with tags := db.tags ++ [(db.nextTagId, name)],
                 nextTagId := db.nextTagId + 1 },
       db.nextTagId)

/-- `Database.add_file_tag`: intern the tag name, then
`INSERT OR IGNORE INTO file_tags` — the `(file_id, tag_id)` primary key makes
re-association a no-op. -/
def add_file_tag (db : Database) (fileId : Nat) (name : String)
    (autoAssigned : Bool) : Database :=
  let g := get_or_create_tag db name
  let db1 := g.1
  let tagId := g.2
  if db1.fileTags.any (fun ft => decide (ft.fileId = fileId ∧ ft.tagId = tagId)) then
    db1
  else
    { db1 with fileTags := db1.fileTags ++ [⟨fileId, tagId, autoAssigned⟩] }

/-- `Database.get_file_tags`: the names joined through `file_tags` for one
file. -/
def get_file_tags (db : Database) (fileId : Nat) : List String :=
  (db.fileTags.filter (fun ft => decide (ft.fileId = fileId))).filterMap
    (fun ft => (db.tags.find? (fun t => decide (t.1 = ft.tagId))).map (·.2))

/-! ## Configuration (`src/config/settings.py`) -/

/-- One entry of the `auto_tag_rules` configuration list. -/
structure AutoTagRule where
  source : String
  tag : String
  enabled : Bool
  deriving DecidableEq, Repr

/-- The configuration keys the pipeline reads.  `downloadBase` is the parent
of the download directory, so real files live under
`downloadBase ++ ["downloads"]` and the symlink forests under
`downloadBase ++ ["by-source"]` etc. (`Config.get_organization_paths`). -/
structure Config where
  downloadBase : FsPath
  autoTagRules : List AutoTagRule
  organizeBySource : Bool
  organizeByTag : Bool
  organizeByDate : Bool
  deriving DecidableEq, Repr

/-- `Config.get_auto_tag_rules`: only the enabled rules. -/
def get_auto_tag_rules (cfg : Config) : List AutoTagRule :=
  cfg.autoTagRules.filter (·.enabled)

/-! ## Downloader (`src/utils/downloader.py`) -/

/-- A substring test (`needle in haystack` on Python strings). -/
def strContains (hay needle : String) : Bool :=
  decide (needle.data <:+: hay.data)

/-- Lower-casing (`str.lower`, restricted to the ASCII case relevant to the
matched domain names). -/
def strLower (s : String) : String := ⟨s.data.map Char.toLower⟩

/-- `VideoDownloader._detect_source`: pattern-match the lower-cased URL
against the known platform domains. -/
def detect_source (url : String) : String :=
  let u := strLower url
  if strContains u "youtube.com" || strContains u "youtu.be" then "youtube"
  else if strContains u "twitter.com" || strContains u "x.com" then "twitter"
  else if strContains u "instagram.com" then "instagram"
  else if strContains u "vimeo.com" then "vimeo"
  else if strContains u "tiktok.com" then "tiktok"
  else if strContains u "twitch.tv" then "twitch"
  else if strContains u "reddit.com" || strContains u "redd.it" then "reddit"
  else "unknown"

/-- `VideoDownloader._get_auto_tags`: the tags of enabled rules whose source
matches. -/
def get_auto_tags (cfg : Config) (source : String) : List String :=
  ((get_auto_tag_rules cfg).filter (fun r => decide (r.source = source))).map (·.tag)

/-- The metadata `yt-dlp`'s `extract_info` reports for a fetched file. -/
structure FetchInfo where
  title : Option String
  duration : Option Nat
  vcodec : Option String
  width : Option Nat
  height : Option Nat
  description : Option String
  thumbnail : Option String
  uploader : Option String
  deriving DecidableEq, Repr

/-- A successful run of the external downloader: where it wrote the file,
its bytes, and the reported metadata. -/
structure FetchOk where
  filepath : FsPath
  content : List Nat
  info : FetchInfo
  deriving DecidableEq, Repr

/-- Behaviour of one step that the Python code allows to raise. -/
inductive StepFault where
  | ok
  | raise (msg : String)
  deriving DecidableEq, Repr

/-- Fault injection for the operations of `download` that can raise in
Python: the initial `check_url_exists` query, the `mkdir` of the download
directory (both outside the `try` block), and reading the fetched file for
hashing and the `INSERT` of the record (both inside it). -/
structure FaultEnv where
  urlCheck : StepFault
  mkdir : StepFault
  hashRead : StepFault
  insert : StepFault
  deriving DecidableEq, Repr

/-- The environment with no injected faults. -/
def noFaults : FaultEnv := ⟨.ok, .ok, .ok, .ok⟩

/-- The dict `VideoDownloader.download` returns, one constructor per status
shape. -/
inductive DlOutcome where
  | urlExists (message : String) (file : Row)
  | duplicate (message : String) (file : Row)
  | success (message : String) (fileId : Nat) (filepath : FsPath)
      (source : String) (tags : List String)
  | error (message : String)
  deriving DecidableEq, Repr

/-- The `status` key of the returned dict. -/
def DlOutcome.status : DlOutcome → String
  | .urlExists _ _ => "exists"
  | .duplicate _ _ => "duplicate"
  | .success _ _ _ _ _ => "success"
  | .error _ => "error"

/-- The mutable state `download` threads: the database, the filesystem, and a
counter of external fetch invocations (for the no-fetch properties). -/
structure PipeState where
  db : Database
  fs : Fs
  fetchCount : Nat
  deriving DecidableEq, Repr

/-- Byte contents at a path (`open(filepath, 'rb').read()`), empty when the
file is missing. -/
def contentAt (fs : Fs) (p : FsPath) : List Nat :=
  match lookupFs fs p with
  | some (.file bs) => bs
  | _ => []

/-- The resolution string `f"{width}x{height}"`, computed only when `width`
is truthy (Python treats `0` and `None` as falsy). -/
def resolutionOf (info : FetchInfo) : Option String :=
  match info.width with
  | some w =>
      if w = 0 then none
      else some (toString w ++ "x" ++ (match info.height with
        | some h => toString h
        | none => "None"))
  | none => none

/-- The metadata dict assembled before `PERSIST`, from the computed hash, the
`stat` size of the fetched file, and the tool-reported information. -/
def mkMetadata (fileHash : String) (size : Nat) (info : FetchInfo) : Metadata :=
  { hash := some fileHash
    size := some size
    duration := info.duration
    codec := info.vcodec
    resolution := resolutionOf info
    title := info.title
    description := info.description
    thumbnail := info.thumbnail
    uploader := info.uploader }

/-- `VideoDownloader.download`.  `hashBytes` stands for SHA-256;
`fetchRes` is the oracle for the external `yt-dlp` run (a `DownloadError`
message or the fetched file); `nowDate` is `datetime.now()` to the precision
the organizer uses.  `Except.error` models an exception propagating to the
caller (the code before the `try` block is not protected); caught exceptions
become the `'error'` status. -/
def download (hashBytes : List Nat → String) (cfg : Config) (env : FaultEnv)
    (fetchRes : Except String FetchOk) (nowDate : DateYM) (st : PipeState)
    (url : String) (additionalTags : Option (List String)) :
    Except String (PipeState × DlOutcome) :=
  -- `self.db.check_url_exists(url)` — before the try block: a raise propagates
  match env.urlCheck with
  | .raise m => .error m
  | .ok =>
  match check_url_exists st.db url with
  | some existing => .ok (st, .urlExists "URL already downloaded" existing)
  | none =>
  let source := detect_source url
  -- `download_path.mkdir(...)` — before the try block: a raise propagates
  match env.mkdir with
  | .raise m => .error m
  | .ok =>
  -- try block begins: `yt_dlp` fetch
  match fetchRes with
  | .error e => .ok (st, .error ("Download error: " ++ e))
  | .ok fr =>
  let st1 : PipeState :=
    { st with fs := fsWrite st.fs fr.filepath (.file fr.content),
              fetchCount := st.fetchCount + 1 }
  -- `self._calculate_file_hash(filepath)`
  match env.hashRead with
  | .raise m => .ok (st1, .error ("Unexpected error: " ++ m))
  | .ok =>
  let fileHash := hashBytes (contentAt st1.fs fr.filepath)
  match check_hash_exists st1.db fileHash with
  | some dup =>
      -- `filepath.unlink()`
      .ok ({ st1 with fs := fsRemove st1.fs fr.filepath },
           .duplicate "File already exists (duplicate hash)" dup)
  | none =>
  let md := mkMetadata fileHash (contentAt st1.fs fr.filepath).length fr.info
  match env.insert with
  | .raise m => .ok (st1, .error ("Unexpected error: " ++ m))
  | .ok =>
  match add_download st1.db url source fr.filepath md with
  | .error cv => .ok (st1, .error ("Unexpected error: " ++ cv.message))
  | .ok dbAndId =>
  let autoTags := get_auto_tags cfg source
  let tags := autoTags ++ additionalTags.getD []
  let db3 := tags.foldl
    (fun d t => add_file_tag d dbAndId.2 t (autoTags.contains t)) dbAndId.1
  let orgRes := organize_file st1.fs cfg.downloadBase fr.filepath source tags
    nowDate cfg.organizeBySource cfg.organizeByTag cfg.organizeByDate
  .ok ({ db := db3, fs := orgRes.1, fetchCount := st1.fetchCount },
       .success "Download complete" dbAndId.2 fr.filepath source tags)

/-! ## Basic lemmas about the filesystem model -/

@[simp] theorem lookupFs_nil (p : FsPath) : lookupFs [] p = none := rfl

@[simp] theorem lookupFs_cons (kv : FsPath × FsEntry) (rest : Fs) (p : FsPath) :
    lookupFs (kv :: rest) p = if kv.1 = p then some kv.2 else lookupFs rest p := rfl

theorem lookupFs_append (a b : Fs) (p : FsPath) :
    lookupFs (a ++ b) p = ((lookupFs a p).orElse (fun _ => lookupFs b p)) := by
  induction a with
  | nil => simp
  | cons kv rest ih =>
      by_cases h : kv.1 = p <;> simp [h, ih]

theorem lookupFs_fsRemove (fs : Fs) (p q : FsPath) :
    lookupFs (fsRemove fs p) q = if q = p then none else lookupFs fs q := by
  induction fs with
  | nil => simp [fsRemove]
  | cons kv rest ih =>
      unfold fsRemove at ih ⊢
      rw [List.filter_cons]
      by_cases hk : kv.1 = p
      · have hd : (decide (kv.1 ≠ p)) = false := by simp [hk]
        rw [hd]
        simp only [Bool.false_eq_true, if_false]
        rw [ih]
        by_cases hq : q = p
        · simp [hq]
        · have hkq : ¬ (kv.1 = q) := fun h => hq (by rw [← h, hk])
          simp [hq, hkq]
      · have hd : (decide (kv.1 ≠ p)) = true := by simp [hk]
        rw [hd]
        simp only [if_true]
        rw [lookupFs_cons]
        by_cases hkq : kv.1 = q
        · have hq : ¬ (q = p) := fun h => hk (by rw [hkq, h])
          simp [hkq, hq]
        · rw [ih]
          simp [hkq]

theorem lookupFs_fsWrite (fs : Fs) (p : FsPath) (e : FsEntry) (q : FsPath) :
    lookupFs (fsWrite fs p e) q = if q = p then some e else lookupFs fs q := by
  unfold fsWrite
  rw [lookupFs_append, lookupFs_fsRemove]
  by_cases hq : q = p
  · simp [hq, Option.orElse]
  · have hq' : ¬ p = q := fun h => hq h.symm
    cases h : lookupFs fs q <;> simp [hq, hq', h, Option.orElse]

/-- If a regular (non-symlink) file occupies the link path, `create_symlink`
reports failure and leaves the filesystem unchanged. -/
theorem create_symlink_file_at_link (fs : Fs) (src link : FsPath) (bs : List Nat)
    (h : lookupFs fs link = some (.file bs)) :
    create_symlink fs src link = (fs, false) := by
  unfold create_symlink
  simp [isSymlinkAt, h]

/-- C2: For every placement target path already occupied by a regular
(non-symlink) file, each of `organize_by_source`/`organize_by_tag`/
`organize_by_date` returns `false` for that placement and the filesystem —
in particular the pre-existing file's contents — is left unchanged. -/
theorem placement_never_overwrites_file (fs : Fs) (base filepath : FsPath) :
    (∀ (src : String) (bs : List Nat),
        lookupFs fs (sourceLinkPath base src filepath) = some (.file bs) →
        organize_by_source fs base filepath src = (fs, false))
  ∧ (∀ (tag : String) (bs : List Nat),
        lookupFs fs (tagLinkPath base tag filepath) = some (.file bs) →
        organize_by_tag fs base filepath tag = (fs, false))
  ∧ (∀ (d : DateYM) (bs : List Nat),
        lookupFs fs (dateLinkPath base d filepath) = some (.file bs) →
        organize_by_date fs base filepath d = (fs, false)) :=
  ⟨fun _ _ h => create_symlink_file_at_link _ _ _ _ h,
   fun _ _ h => create_symlink_file_at_link _ _ _ _ h,
   fun _ _ h => create_symlink_file_at_link _ _ _ _ h⟩

/-- An example filesystem for the C2 witness: a real file sits at each of the
three placement target slots. -/
def fsC2 : Fs :=
  [ (["root", "by-source", "youtube", "v.mp4"], .file [1]),
    (["root", "by-tag", "x", "v.mp4"], .file [2]),
    (["root", "by-date", "2024-03", "v.mp4"], .file [3]),
    (["root", "downloads", "v.mp4"], .file [9, 9]) ]

/-- Witness for C2 at a concrete filesystem. -/
theorem placement_never_overwrites_file_witness :
    organize_by_source fsC2 ["root"] ["root", "downloads", "v.mp4"] "youtube"
        = (fsC2, false)
  ∧ organize_by_tag fsC2 ["root"] ["root", "downloads", "v.mp4"] "x"
        = (fsC2, false)
  ∧ organize_by_date fsC2 ["root"] ["root", "downloads", "v.mp4"] ⟨2024, 3⟩
        = (fsC2, false) :=
  ⟨(placement_never_overwrites_file fsC2 ["root"] _).1 "youtube" [1] (by decide),
   (placement_never_overwrites_file fsC2 ["root"] _).2.1 "x" [2] (by decide),
   (placement_never_overwrites_file fsC2 ["root"] _).2.2 ⟨2024, 3⟩ [3] (by decide)⟩

/-! ## C3: uniqueness constraints of `add_download` -/

/-- A pre-populated database holding one record with content hash `"h"`. -/
def dbC3 : Database :=
  { downloads :=
      [{ id := 1
         url := "https://a.example/v1"
         source := "unknown"
         filepath := ["root", "downloads", "a.mp4"]
         filename := "a.mp4"
         hash := some "h"
         size := some 2
         duration := none
         codec := none
         resolution := none
         title := none
         description := none
         thumbnailUrl := none
         uploader := none }]
    nextDownloadId := 2
    tags := []
    nextTagId := 1
    fileTags := [] }

/-- Empty metadata carrying a given hash. -/
def mdWithHash (h : String) : Metadata :=
  { hash := some h, size := none, duration := none, codec := none,
    resolution := none, title := none, description := none,
    thumbnail := none, uploader := none }

/-- C3 counterexample: the schema has no UNIQUE constraint on `hash`, so
inserting a record whose content hash is already present (under a fresh url
and filepath) succeeds instead of failing with a constraint violation. -/
theorem add_download_duplicate_hash_succeeds :
    (check_hash_exists dbC3 "h").isSome = true
  ∧ (add_download dbC3 "https://b.example/v2" "unknown"
        ["root", "downloads", "b.mp4"] (mdWithHash "h")).isOk = true := by
  decide

/-- C3 (amended): `add_download` fails with a constraint violation exactly
when a record with the same `url` or the same `filepath` is already present;
a duplicate content hash alone does not make the insert fail. -/
theorem add_download_fails_iff (db : Database) (url source : String)
    (p : FsPath) (md : Metadata) :
    (∃ e, add_download db url source p md = .error e) ↔
      ((∃ r ∈ db.downloads, r.url = url) ∨ (∃ r ∈ db.downloads, r.filepath = p)) := by
  unfold add_download
  by_cases h1 : db.downloads.any (fun r => decide (r.url = url)) = true
  · simp only [h1, if_true]
    simp only [List.any_eq_true, decide_eq_true_eq] at h1
    constructor
    · intro _; exact Or.inl h1
    · intro _; exact ⟨⟨"UNIQUE constraint failed: downloads.url"⟩, rfl⟩
  · simp only [h1, if_false]
    by_cases h2 : db.downloads.any (fun r => decide (r.filepath = p)) = true
    · simp only [h2, if_true]
      simp only [List.any_eq_true, decide_eq_true_eq] at h2
      constructor
      · intro _; exact Or.inr h2
      · intro _; exact ⟨⟨"UNIQUE constraint failed: downloads.filepath"⟩, rfl⟩
    · simp only [h2, if_false]
      simp only [List.any_eq_true, decide_eq_true_eq] at h1 h2
      constructor
      · rintro ⟨e, he⟩; cases he
      · rintro (h | h)
        · exact absurd h h1
        · exact absurd h h2

/-! ## C9: insert-if-absent semantics of `add_file_tag` -/

/-- The `(file_id, tag_id)` key pairs of the `file_tags` table. -/
def ftPairs (db : Database) : List (Nat × Nat) :=
  db.fileTags.map (fun ft => (ft.fileId, ft.tagId))

/-- `get_or_create_tag` only touches the tags table. -/
theorem get_or_create_tag_fileTags (db : Database) (name : String) :
    (get_or_create_tag db name).1.fileTags = db.fileTags := by
  unfold get_or_create_tag
  cases db.tags.find? (fun t => decide (t.2 = name)) <;> rfl

/-- One `add_file_tag` call preserves key-pair uniqueness of `file_tags`. -/
theorem add_file_tag_pairs_nodup (db : Database) (fid : Nat) (name : String)
    (a : Bool) (h : (ftPairs db).Nodup) :
    (ftPairs (add_file_tag db fid name a)).Nodup := by
  unfold add_file_tag
  set g := get_or_create_tag db name with hg
  have hft : g.1.fileTags = db.fileTags := get_or_create_tag_fileTags db name
  cases hmem : g.1.fileTags.any
      (fun ft => decide (ft.fileId = fid ∧ ft.tagId = g.2)) with
  | true =>
      simp only [hmem, if_true]
      simpa [ftPairs, hft] using h
  | false =>
      simp only [hmem, Bool.false_eq_true, if_false]
      simp only [List.any_eq_false, decide_eq_true_eq] at hmem
      simp only [ftPairs] at h ⊢
      rw [hft, List.map_append]
      apply List.Nodup.append h (List.nodup_singleton _)
      intro x hx hx'
      simp only [List.map_cons, List.map_nil, List.mem_singleton] at hx'
      subst hx'
      simp only [List.mem_map] at hx
      obtain ⟨ft, hft', heq⟩ := hx
      have h1 := congrArg Prod.fst heq
      have h2 := congrArg Prod.snd heq
      simp only [] at h1 h2
      exact hmem ft (hft ▸ hft') ⟨h1, h2⟩

/-- C9: `add_file_tag` has insert-if-absent semantics: any sequence of calls
preserves the invariant that there is at most one association row per
`(file_id, tag_id)` pair, and calling it for an already-associated pair is a
no-op returning the database unchanged. -/
theorem add_file_tag_insert_if_absent :
    (∀ (db : Database) (ops : List (Nat × String × Bool)),
        (ftPairs db).Nodup →
        (ftPairs (ops.foldl (fun d o => add_file_tag d o.1 o.2.1 o.2.2) db)).Nodup)
  ∧ (∀ (db : Database) (fid : Nat) (name : String) (a : Bool)
        (t : Nat × String),
        db.tags.find? (fun t' => decide (t'.2 = name)) = some t →
        (fid, t.1) ∈ ftPairs db →
        add_file_tag db fid name a = db) := by
  constructor
  · intro db ops
    induction ops generalizing db with
    | nil => intro h; exact h
    | cons o rest ih =>
        intro h
        exact ih _ (add_file_tag_pairs_nodup db o.1 o.2.1 o.2.2 h)
  · intro db fid name a t hfind hmem
    simp only [ftPairs, List.mem_map] at hmem
    obtain ⟨ft, hftm, heq⟩ := hmem
    have h1 := congrArg Prod.fst heq
    have h2 := congrArg Prod.snd heq
    simp only [] at h1 h2
    unfold add_file_tag get_or_create_tag
    rw [hfind]
    simp only []
    have hany : db.fileTags.any
        (fun ft => decide (ft.fileId = fid ∧ ft.tagId = t.1)) = true := by
      simp only [List.any_eq_true, decide_eq_true_eq]
      exact ⟨ft, hftm, h1, h2⟩
    simp only [hany, if_true]

/-- A database with one tag row and one association for the C9 witness. -/
def dbC9 : Database :=
  { downloads := [], nextDownloadId := 1,
    tags := [(1, "t")], nextTagId := 2,
    fileTags := [⟨1, 1, true⟩] }

/-- Witness for C9 at a concrete database. -/
theorem add_file_tag_insert_if_absent_witness :
    (ftPairs ([(2, ("demo", false))].foldl
        (fun d (o : Nat × String × Bool) => add_file_tag d o.1 o.2.1 o.2.2) dbC9)).Nodup
  ∧ add_file_tag dbC9 1 "t" false = dbC9 :=
  ⟨add_file_tag_insert_if_absent.1 dbC9 [(2, ("demo", false))] (by decide),
   add_file_tag_insert_if_absent.2 dbC9 1 "t" false (1, "t") (by decide) (by decide)⟩

/-! ## C5: short-circuit on an already-downloaded URL -/

/-- C5: For every URL already present in the store, `download` returns the
`'exists'` outcome carrying the existing record and leaves the whole pipeline
state — database, filesystem, and the count of external fetch invocations —
unchanged (in particular, no fetch is performed). -/
theorem download_url_already_present (hashBytes : List Nat → String)
    (cfg : Config) (env : FaultEnv) (fetchRes : Except String FetchOk)
    (nowDate : DateYM) (st : PipeState) (url : String)
    (atags : Option (List String)) (r : Row)
    (henv : env.urlCheck = .ok)
    (h : check_url_exists st.db url = some r) :
    download hashBytes cfg env fetchRes nowDate st url atags
      = .ok (st, .urlExists "URL already downloaded" r) := by
  unfold download
  rw [henv]
  simp only [h]

/-- A one-record database for the pipeline witnesses. -/
def dbP : Database :=
  { downloads :=
      [{ id := 1
         url := "https://a.example/v1"
         source := "unknown"
         filepath := ["root", "downloads", "a.mp4"]
         filename := "a.mp4"
         hash := some "h"
         size := some 2
         duration := none
         codec := none
         resolution := none
         title := none
         description := none
         thumbnailUrl := none
         uploader := none }]
    nextDownloadId := 2
    tags := []
    nextTagId := 1
    fileTags := [] }

/-- A configuration for the pipeline witnesses. -/
def cfgP : Config :=
  { downloadBase := ["root"]
    autoTagRules := [⟨"youtube", "youtube", true⟩]
    organizeBySource := true
    organizeByTag := true
    organizeByDate := true }

/-- A pipeline state for the witnesses: one indexed record, its real file on
disk, no fetches performed yet. -/
def stP : PipeState :=
  { db := dbP
    fs := [(["root", "downloads", "a.mp4"], .file [5, 6])]
    fetchCount := 0 }

/-- A hash function standing in for SHA-256 in the witnesses (the claims
depend only on the hash being a function of the byte contents). -/
def constHash (_ : List Nat) : String := "h"

/-- Witness for C5 at a concrete state. -/
theorem download_url_already_present_witness :
    download constHash cfgP noFaults
        (.ok ⟨["root", "downloads", "x.mp4"], [7], ⟨none, none, none, none, none, none, none, none⟩⟩)
        ⟨2024, 3⟩ stP "https://a.example/v1" none
      = .ok (stP, .urlExists "URL already downloaded" (dbP.downloads.get ⟨0, by decide⟩)) :=
  download_url_already_present constHash cfgP noFaults _ ⟨2024, 3⟩ stP
    "https://a.example/v1" none _ (by decide) (by decide)

/-! ## C1: duplicate content detection across distinct URLs -/

/-- Number of records carrying a given content hash. -/
def countHashRecords (db : Database) (h : String) : Nat :=
  (db.downloads.filter (fun r => decide (r.hash = some h))).length

/-- Removing the key just written removes it entirely. -/
theorem fsRemove_fsWrite_self (fs : Fs) (p : FsPath) (e : FsEntry) :
    fsRemove (fsWrite fs p e) p = fsRemove fs p := by
  unfold fsWrite fsRemove
  rw [List.filter_append, List.filter_filter]
  simp

/-- Reading back the bytes just written. -/
theorem contentAt_fsWrite_self (fs : Fs) (p : FsPath) (c : List Nat) :
    contentAt (fsWrite fs p (.file c)) p = c := by
  unfold contentAt
  rw [lookupFs_fsWrite]
  simp

/-- C1: When a fresh URL's fetched file is byte-identical to an
already-indexed file (so its hash is already in the store, held by the
record `r` of the earlier, distinct URL), `download` returns the
`'duplicate'` outcome carrying the pre-existing record `r`, deletes the
just-fetched file from disk, inserts no new record, and the store afterwards
still contains exactly one record for that content hash. -/
theorem download_duplicate_content (hashBytes : List Nat → String)
    (cfg : Config) (env : FaultEnv) (nowDate : DateYM) (st : PipeState)
    (url : String) (atags : Option (List String)) (p : FsPath) (c : List Nat)
    (info : FetchInfo) (r : Row)
    (h1 : env.urlCheck = .ok) (h2 : env.mkdir = .ok) (h3 : env.hashRead = .ok)
    (hurl : check_url_exists st.db url = none)
    (hdistinct : r.url ≠ url)
    (hhash : check_hash_exists st.db (hashBytes c) = some r)
    (hcount : countHashRecords st.db (hashBytes c) = 1) :
    download hashBytes cfg env (.ok ⟨p, c, info⟩) nowDate st url atags
      = .ok ({ db := st.db, fs := fsRemove st.fs p,
               fetchCount := st.fetchCount + 1 },
             .duplicate "File already exists (duplicate hash)" r)
  ∧ lookupFs (fsRemove st.fs p) p = none
  ∧ countHashRecords st.db (hashBytes c) = 1 := by
  refine ⟨?_, ?_, hcount⟩
  · unfold download
    rw [h1]
    simp only [hurl]
    rw [h2]
    simp only [h3]
    rw [contentAt_fsWrite_self]
    simp only [hhash]
    rw [fsRemove_fsWrite_self]
  · rw [lookupFs_fsRemove]
    simp

/-- Witness for C1: a second, distinct URL fetches bytes `[5, 6]`, identical
to the already-indexed file, and is detected as a duplicate. -/
theorem download_duplicate_content_witness :
    download constHash cfgP noFaults
        (.ok ⟨["root", "downloads", "b.mp4"], [5, 6],
              ⟨none, none, none, none, none, none, none, none⟩⟩)
        ⟨2024, 3⟩ stP "https://b.example/v2" none
      = .ok ({ db := stP.db, fs := fsRemove stP.fs ["root", "downloads", "b.mp4"],
               fetchCount := stP.fetchCount + 1 },
             .duplicate "File already exists (duplicate hash)"
               (dbP.downloads.get ⟨0, by decide⟩))
  ∧ lookupFs (fsRemove stP.fs ["root", "downloads", "b.mp4"])
      ["root", "downloads", "b.mp4"] = none
  ∧ countHashRecords stP.db (constHash [5, 6]) = 1 :=
  download_duplicate_content constHash cfgP noFaults ⟨2024, 3⟩ stP
    "https://b.example/v2" none ["root", "downloads", "b.mp4"] [5, 6]
    ⟨none, none, none, none, none, none, none, none⟩ _
    (by decide) (by decide) (by decide) (by decide) (by decide) (by decide)
    (by decide)

/-! ## C10: the pipeline's error discipline -/

/-- C10 counterexample: `db.check_url_exists(url)` (downloader.py:109) runs
before the `try` block, so a persistence-layer exception raised there
propagates to `download`'s caller instead of being mapped to an `'error'`
result. -/
theorem download_raises_before_try :
    download constHash cfgP
        ⟨.raise "sqlite3.OperationalError: disk I/O error", .ok, .ok, .ok⟩
        (.ok ⟨["root", "downloads", "c.mp4"], [1],
              ⟨none, none, none, none, none, none, none, none⟩⟩)
        ⟨2024, 3⟩ stP "https://c.example/v3" none
      = .error "sqlite3.OperationalError: disk I/O error" := rfl

/-- C10 (amended): provided the two operations preceding the `try` block —
the initial URL lookup and the creation of the download directory — do not
raise, `download` never raises: for every input and every internal failure
of fetching, hashing, or persistence it returns a dict whose `status` is one
of `'exists'`, `'duplicate'`, `'success'`, `'error'`, with failures mapped to
`'error'`. -/
theorem download_status_total (hashBytes : List Nat → String) (cfg : Config)
    (env : FaultEnv) (fetchRes : Except String FetchOk) (nowDate : DateYM)
    (st : PipeState) (url : String) (atags : Option (List String))
    (h1 : env.urlCheck = .ok) (h2 : env.mkdir = .ok) :
    ∃ (st' : PipeState) (out : DlOutcome),
      download hashBytes cfg env fetchRes nowDate st url atags = .ok (st', out)
      ∧ (out.status = "exists" ∨ out.status = "duplicate" ∨
         out.status = "success" ∨ out.status = "error") := by
  unfold download
  simp only [h1, h2]
  repeat' split
  all_goals exact ⟨_, _, rfl, by simp [DlOutcome.status]⟩

/-- Witness for C10: a fetch failure at a concrete state is returned as an
`'error'`-status result, not raised. -/
theorem download_status_total_witness :
    ∃ (st' : PipeState) (out : DlOutcome),
      download constHash cfgP noFaults (.error "HTTP Error 404") ⟨2024, 3⟩
          stP "https://c.example/v3" none = .ok (st', out)
      ∧ (out.status = "exists" ∨ out.status = "duplicate" ∨
         out.status = "success" ∨ out.status = "error") :=
  download_status_total constHash cfgP noFaults (.error "HTTP Error 404")
    ⟨2024, 3⟩ stP "https://c.example/v3" none rfl rfl

/-! ## C8: tag computation on a successful download -/

/-- The tag id interned for a name, if any. -/
def tagIdOf (db : Database) (name : String) : Option Nat :=
  (db.tags.find? (fun t => decide (t.2 = name))).map (·.1)

/-- The association row for a (file, tag-name) pair, read back through the
interning table. -/
def assocRowFor (db : Database) (fileId : Nat) (name : String) : Option FileTag :=
  match tagIdOf db name with
  | some tid =>
      db.fileTags.find? (fun ft => decide (ft.fileId = fileId ∧ ft.tagId = tid))
  | none => none

/-- Whether the stored association of `name` with `fileId` is marked
auto-assigned. -/
def assocAuto (db : Database) (fileId : Nat) (name : String) : Option Bool :=
  (assocRowFor db fileId name).map (·.autoAssigned)

/-- Well-formedness of the tag tables, as SQLite's constraints and foreign
keys guarantee: tag names unique, tag ids unique and below the AUTOINCREMENT
counter, and association rows referencing only allocated tag ids. -/
def DbWF (db : Database) : Prop :=
  (db.tags.map Prod.snd).Nodup ∧ (db.tags.map Prod.fst).Nodup ∧
  (∀ t ∈ db.tags, t.1 < db.nextTagId) ∧
  (∀ ft ∈ db.fileTags, ft.tagId < db.nextTagId)

/-- `find?` on an association list with distinct keys returns the stored
pair. -/
theorem tags_find_by_id (tags : List (Nat × String)) (k : Nat) (v : String)
    (hnd : (tags.map Prod.fst).Nodup) (hmem : (k, v) ∈ tags) :
    tags.find? (fun t => decide (t.1 = k)) = some (k, v) := by
  induction tags with
  | nil => cases hmem
  | cons a rest ih =>
      rw [List.map_cons, List.nodup_cons] at hnd
      rcases List.mem_cons.mp hmem with h | h
      · rw [← h]
        simp
      · have hk : (decide (a.1 = k)) = false :=
          decide_eq_false fun he =>
            hnd.1 (by rw [he]; exact List.mem_map.mpr ⟨(k, v), h, rfl⟩)
        simp only [List.find?_cons, hk]
        exact ih hnd.2 h

/-- `find?` by value on an association list with distinct values returns the
stored pair. -/
theorem tags_find_by_name (tags : List (Nat × String)) (k : Nat) (v : String)
    (hnd : (tags.map Prod.snd).Nodup) (hmem : (k, v) ∈ tags) :
    tags.find? (fun t => decide (t.2 = v)) = some (k, v) := by
  induction tags with
  | nil => cases hmem
  | cons a rest ih =>
      rw [List.map_cons, List.nodup_cons] at hnd
      rcases List.mem_cons.mp hmem with h | h
      · rw [← h]
        simp
      · have hk : (decide (a.2 = v)) = false :=
          decide_eq_false fun he =>
            hnd.1 (by rw [he]; exact List.mem_map.mpr ⟨(k, v), h, rfl⟩)
        simp only [List.find?_cons, hk]
        exact ih hnd.2 h

/-- Case analysis of `get_or_create_tag`: either the name is interned and the
database is unchanged, or a fresh row is appended under the AUTOINCREMENT
id. -/
theorem get_or_create_tag_spec (db : Database) (name : String) :
    (∃ t, db.tags.find? (fun t' => decide (t'.2 = name)) = some t ∧
        get_or_create_tag db name = (db, t.1))
  ∨ (db.tags.find? (fun t' => decide (t'.2 = name)) = none ∧
        get_or_create_tag db name =
          ({ db with tags := db.tags ++ [(db.nextTagId, name)],
                     nextTagId := db.nextTagId + 1 }, db.nextTagId)) := by
  unfold get_or_create_tag
  cases h : db.tags.find? (fun t' => decide (t'.2 = name)) with
  | some t => exact Or.inl ⟨t, rfl, rfl⟩
  | none => exact Or.inr ⟨rfl, rfl⟩

/-- Full case analysis of `add_file_tag` on a well-formed database: the name
is interned and the pair exists (no-op); the name is interned and the pair is
new (one row appended); or the name is fresh (tag row and association row
appended). -/
theorem add_file_tag_spec (db : Database) (fid : Nat) (name : String) (flag : Bool)
    (hwf : DbWF db) :
    (∃ tid r,
        db.tags.find? (fun t' => decide (t'.2 = name)) = some (tid, name) ∧
        db.fileTags.find? (fun ft => decide (ft.fileId = fid ∧ ft.tagId = tid)) = some r ∧
        add_file_tag db fid name flag = db)
  ∨ (∃ tid,
        db.tags.find? (fun t' => decide (t'.2 = name)) = some (tid, name) ∧
        db.fileTags.find? (fun ft => decide (ft.fileId = fid ∧ ft.tagId = tid)) = none ∧
        add_file_tag db fid name flag =
          { db with fileTags := db.fileTags ++ [⟨fid, tid, flag⟩] })
  ∨ (db.tags.find? (fun t' => decide (t'.2 = name)) = none ∧
        add_file_tag db fid name flag =
          { db with tags := db.tags ++ [(db.nextTagId, name)],
                    nextTagId := db.nextTagId + 1,
                    fileTags := db.fileTags ++ [⟨fid, db.nextTagId, flag⟩] }) := by
  obtain ⟨hnames, hids, hlt, hftlt⟩ := hwf
  rcases get_or_create_tag_spec db name with ⟨t, hfind, heq⟩ | ⟨hfind, heq⟩
  · have ht2 : t.2 = name := by simpa using List.find?_some hfind
    have ht' : (t.1, name) = t := by rw [← ht2]
    cases hpair : db.fileTags.find?
        (fun ft => decide (ft.fileId = fid ∧ ft.tagId = t.1)) with
    | some r =>
        left
        refine ⟨t.1, r, by rw [hfind, ht'], hpair, ?_⟩
        have hany : db.fileTags.any
            (fun ft => decide (ft.fileId = fid ∧ ft.tagId = t.1)) = true := by
          rw [List.any_eq_true]
          have hr := List.find?_some hpair
          exact ⟨r, List.mem_of_find?_eq_some hpair, hr⟩
        unfold add_file_tag
        simp only [heq, hany, if_true]
    | none =>
        right; left
        refine ⟨t.1, by rw [hfind, ht'], hpair, ?_⟩
        have hany : db.fileTags.any
            (fun ft => decide (ft.fileId = fid ∧ ft.tagId = t.1)) = false := by
          rw [List.any_eq_false]
          exact List.find?_eq_none.mp hpair
        unfold add_file_tag
        simp only [heq, hany, Bool.false_eq_true, if_false]
  · right; right
    refine ⟨hfind, ?_⟩
    have hany : db.fileTags.any
        (fun ft => decide (ft.fileId = fid ∧ ft.tagId = db.nextTagId)) = false := by
      rw [List.any_eq_false]
      intro ft hft
      simp only [decide_eq_true_eq, not_and]
      intro _
      exact Nat.ne_of_lt (hftlt ft hft)
    unfold add_file_tag
    simp only [heq, hany, Bool.false_eq_true, if_false]

/-- `add_file_tag` preserves database well-formedness. -/
theorem add_file_tag_wf (db : Database) (fid : Nat) (name : String) (flag : Bool)
    (hwf : DbWF db) : DbWF (add_file_tag db fid name flag) := by
  obtain ⟨hnames, hids, hlt, hftlt⟩ := hwf
  rcases add_file_tag_spec db fid name flag ⟨hnames, hids, hlt, hftlt⟩ with
    ⟨tid, r, hfind, hpair, hres⟩ | ⟨tid, hfind, hpair, hres⟩ | ⟨hfind, hres⟩
  · rw [hres]; exact ⟨hnames, hids, hlt, hftlt⟩
  · rw [hres]
    refine ⟨hnames, hids, hlt, ?_⟩
    intro ft hft
    rcases List.mem_append.mp hft with h | h
    · exact hftlt ft h
    · simp only [List.mem_singleton] at h
      subst h
      have : (tid, name) ∈ db.tags := List.mem_of_find?_eq_some hfind
      exact hlt _ this
  · rw [hres]
    refine ⟨?_, ?_, ?_, ?_⟩
    · simp only [List.map_append, List.map_cons, List.map_nil]
      apply List.Nodup.append hnames (List.nodup_singleton _)
      intro x hx hx'
      simp only [List.mem_singleton] at hx'
      subst hx'
      obtain ⟨t, ht, ht2⟩ := List.mem_map.mp hx
      exact absurd ht2 (by simpa using (List.find?_eq_none.mp hfind t ht))
    · simp only [List.map_append, List.map_cons, List.map_nil]
      apply List.Nodup.append hids (List.nodup_singleton _)
      intro x hx hx'
      simp only [List.mem_singleton] at hx'
      subst hx'
      obtain ⟨t, ht, ht1⟩ := List.mem_map.mp hx
      exact absurd ht1 (Nat.ne_of_lt (hlt t ht))
    · intro t ht
      rcases List.mem_append.mp ht with h | h
      · exact Nat.lt_succ_of_lt (hlt t h)
      · simp only [List.mem_singleton] at h
        subst h
        exact Nat.lt_succ_self _
    · intro ft hft
      rcases List.mem_append.mp hft with h | h
      · exact Nat.lt_succ_of_lt (hftlt ft h)
      · simp only [List.mem_singleton] at h
        subst h
        exact Nat.lt_succ_self _

/-- Effect of `add_file_tag` on the stored auto-assigned flag of the same
name: a pre-existing association keeps its flag (INSERT OR IGNORE), a new
association records the given flag. -/
theorem assocAuto_add_same (db : Database) (fid : Nat) (name : String) (flag : Bool)
    (hwf : DbWF db) :
    assocAuto (add_file_tag db fid name flag) fid name =
      match assocAuto db fid name with
      | some b => some b
      | none => some flag := by
  obtain ⟨hnames, hids, hlt, hftlt⟩ := hwf
  rcases add_file_tag_spec db fid name flag ⟨hnames, hids, hlt, hftlt⟩ with
    ⟨tid, r, hfind, hpair, hres⟩ | ⟨tid, hfind, hpair, hres⟩ | ⟨hfind, hres⟩
  · rw [hres]
    unfold assocAuto assocRowFor tagIdOf
    rw [hfind]
    simp only [Option.map_some']
    rw [hpair]
    rfl
  · rw [hres]
    unfold assocAuto assocRowFor tagIdOf
    simp only []
    rw [hfind]
    simp only [Option.map_some']
    rw [List.find?_append, hpair]
    simp [Option.or]
  · rw [hres]
    unfold assocAuto assocRowFor tagIdOf
    simp only []
    rw [List.find?_append, hfind]
    simp only [Option.none_or]
    have hnew : ([(db.nextTagId, name)].find?
        (fun t' => decide (t'.2 = name))) = some (db.nextTagId, name) := by
      simp
    rw [hnew]
    simp only [Option.map_some']
    rw [List.find?_append]
    have hold : db.fileTags.find?
        (fun ft => decide (ft.fileId = fid ∧ ft.tagId = db.nextTagId)) = none := by
      rw [List.find?_eq_none]
      intro ft hft
      simp only [decide_eq_true_eq, not_and]
      intro _
      exact Nat.ne_of_lt (hftlt ft hft)
    rw [hold]
    simp [Option.or]

/-- `add_file_tag` does not disturb the association of any other tag name
with the file. -/
theorem assocAuto_add_other (db : Database) (fid : Nat) (name : String)
    (flag : Bool) (m : String) (hwf : DbWF db) (hne : m ≠ name) :
    assocAuto (add_file_tag db fid name flag) fid m = assocAuto db fid m := by
  obtain ⟨hnames, hids, hlt, hftlt⟩ := hwf
  rcases add_file_tag_spec db fid name flag ⟨hnames, hids, hlt, hftlt⟩ with
    ⟨tid, r, hfind, hpair, hres⟩ | ⟨tid, hfind, hpair, hres⟩ | ⟨hfind, hres⟩
  · rw [hres]
  · rw [hres]
    unfold assocAuto assocRowFor tagIdOf
    simp only []
    cases hm : db.tags.find? (fun t' => decide (t'.2 = m)) with
    | none => rfl
    | some tm =>
        simp only [Option.map_some']
        have htm2 : tm.2 = m := by simpa using List.find?_some hm
        have hmm : tm ∈ db.tags := List.mem_of_find?_eq_some hm
        have htn : (tid, name) ∈ db.tags := List.mem_of_find?_eq_some hfind
        have hnetid : ¬ (tid = tm.1) := by
          intro he
          have heq2 : (tid, name) = tm :=
            List.inj_on_of_nodup_map hids htn hmm (by simpa using he)
          have : name = m := by rw [← htm2]; exact congrArg Prod.snd heq2
          exact hne this.symm
        rw [List.find?_append]
        have hnewnone : ([(⟨fid, tid, flag⟩ : FileTag)].find?
            (fun ft => decide (ft.fileId = fid ∧ ft.tagId = tm.1))) = none := by
          rw [List.find?_eq_none]
          intro ft hft
          simp only [List.mem_singleton] at hft
          subst hft
          simp only [decide_eq_true_eq, not_and]
          intro _
          exact hnetid
        rw [hnewnone]
        simp [Option.or_none]
  · rw [hres]
    unfold assocAuto assocRowFor tagIdOf
    simp only []
    rw [List.find?_append]
    have hnewname : ([(db.nextTagId, name)].find?
        (fun t' => decide (t'.2 = m))) = none := by
      rw [List.find?_eq_none]
      intro t' ht'
      simp only [List.mem_singleton] at ht'
      subst ht'
      simp only [decide_eq_true_eq]
      exact fun h => hne h.symm
    rw [hnewname, Option.or_none]
    cases hm : db.tags.find? (fun t' => decide (t'.2 = m)) with
    | none => rfl
    | some tm =>
        simp only [Option.map_some']
        have hmm : tm ∈ db.tags := List.mem_of_find?_eq_some hm
        have htlt : tm.1 < db.nextTagId := hlt tm hmm
        rw [List.find?_append]
        have hnewnone : ([(⟨fid, db.nextTagId, flag⟩ : FileTag)].find?
            (fun ft => decide (ft.fileId = fid ∧ ft.tagId = tm.1))) = none := by
          rw [List.find?_eq_none]
          intro ft hft
          simp only [List.mem_singleton] at hft
          subst hft
          simp only [decide_eq_true_eq, not_and]
          intro _
          exact fun h => Nat.ne_of_lt htlt h.symm
        rw [hnewnone]
        simp [Option.or_none]

/-- Effect of `add_file_tag` on the tag list of the file: unchanged when the
association already existed, extended by exactly the new name otherwise. -/
theorem get_file_tags_add (db : Database) (fid : Nat) (name : String) (flag : Bool)
    (hwf : DbWF db) :
    get_file_tags (add_file_tag db fid name flag) fid =
      get_file_tags db fid ++
        (match assocRowFor db fid name with
         | some _ => []
         | none => [name]) := by
  obtain ⟨hnames, hids, hlt, hftlt⟩ := hwf
  rcases add_file_tag_spec db fid name flag ⟨hnames, hids, hlt, hftlt⟩ with
    ⟨tid, r, hfind, hpair, hres⟩ | ⟨tid, hfind, hpair, hres⟩ | ⟨hfind, hres⟩
  · have hsome : assocRowFor db fid name = some r := by
      unfold assocRowFor tagIdOf
      rw [hfind]
      simp only [Option.map_some']
      rw [hpair]
    rw [hres, hsome]
    simp
  · have hnone : assocRowFor db fid name = none := by
      unfold assocRowFor tagIdOf
      rw [hfind]
      simp only [Option.map_some']
      rw [hpair]
    rw [hres, hnone]
    unfold get_file_tags
    simp only []
    rw [List.filter_append, List.filterMap_append]
    congr 1
    have hfilter : List.filter (fun ft => decide (ft.fileId = fid))
        [(⟨fid, tid, flag⟩ : FileTag)] = [⟨fid, tid, flag⟩] := by
      simp
    rw [hfilter]
    have hid : db.tags.find? (fun t => decide (t.1 = tid)) = some (tid, name) :=
      tags_find_by_id db.tags tid name hids (List.mem_of_find?_eq_some hfind)
    simp [List.filterMap_cons, hid]
  · have hnone : assocRowFor db fid name = none := by
      unfold assocRowFor tagIdOf
      rw [hfind]
      rfl
    rw [hres, hnone]
    unfold get_file_tags
    simp only []
    rw [List.filter_append, List.filterMap_append]
    congr 1
    · apply List.filterMap_congr
      intro ft hft
      have hftmem : ft ∈ db.fileTags := List.mem_of_mem_filter hft
      have hlt2 : ft.tagId < db.nextTagId := hftlt ft hftmem
      rw [List.find?_append]
      have hnone2 : ([(db.nextTagId, name)].find?
          (fun t => decide (t.1 = ft.tagId))) = none := by
        rw [List.find?_eq_none]
        intro t' ht'
        simp only [List.mem_singleton] at ht'
        subst ht'
        simp only [decide_eq_true_eq]
        exact fun h => Nat.ne_of_lt hlt2 h.symm
      rw [hnone2, Option.or_none]
    · have hfilter : List.filter (fun ft => decide (ft.fileId = fid))
          [(⟨fid, db.nextTagId, flag⟩ : FileTag)] = [⟨fid, db.nextTagId, flag⟩] := by
        simp
      rw [hfilter]
      have holdnone : db.tags.find? (fun t => decide (t.1 = db.nextTagId)) = none := by
        rw [List.find?_eq_none]
        intro t' ht'
        simp only [decide_eq_true_eq]
        exact Nat.ne_of_lt (hlt t' ht')
      rw [List.filterMap_cons]
      simp only [List.find?_append, holdnone, Option.none_or]
      simp [List.find?_cons]

/-- A stored association row implies membership in the file's tag list. -/
theorem mem_gft_of_assocRow (db : Database) (fid : Nat) (name : String) (r : FileTag)
    (hids : (db.tags.map Prod.fst).Nodup)
    (har : assocRowFor db fid name = some r) :
    name ∈ get_file_tags db fid := by
  unfold assocRowFor tagIdOf at har
  cases hfd : db.tags.find? (fun t => decide (t.2 = name)) with
  | none => rw [hfd] at har; cases har
  | some t =>
      rw [hfd] at har
      simp only [Option.map_some'] at har
      have ht2 : t.2 = name := by simpa using List.find?_some hfd
      have htm : (t.1, name) ∈ db.tags := by
        have : (t.1, name) = t := by rw [← ht2]
        rw [this]
        exact List.mem_of_find?_eq_some hfd
      have hrmem : r ∈ db.fileTags := List.mem_of_find?_eq_some har
      have hrpred := List.find?_some har
      simp only [decide_eq_true_eq] at hrpred
      unfold get_file_tags
      apply List.mem_filterMap.mpr
      refine ⟨r, ?_, ?_⟩
      · apply List.mem_filter.mpr
        exact ⟨hrmem, by simp [hrpred.1]⟩
      · rw [hrpred.2, tags_find_by_id db.tags t.1 name hids htm]
        rfl

/-- Characterization of a left fold of `add_file_tag` calls for one file over
a list of names with flags `f`: well-formedness is preserved, the file's tag
set is extended by exactly the names in the list, a name in the list is
associated with flag `f name` unless an earlier association existed (whose
flag is kept), and other names' associations are untouched. -/
theorem tag_fold_spec (fid : Nat) (f : String → Bool) :
    ∀ (ts : List String) (db : Database), DbWF db →
      DbWF (ts.foldl (fun d t => add_file_tag d fid t (f t)) db)
      ∧ (∀ name,
          name ∈ get_file_tags (ts.foldl (fun d t => add_file_tag d fid t (f t)) db) fid
            ↔ (name ∈ ts ∨ name ∈ get_file_tags db fid))
      ∧ (∀ name ∈ ts,
          assocAuto (ts.foldl (fun d t => add_file_tag d fid t (f t)) db) fid name =
            match assocAuto db fid name with
            | some b => some b
            | none => some (f name))
      ∧ (∀ name, name ∉ ts →
          assocAuto (ts.foldl (fun d t => add_file_tag d fid t (f t)) db) fid name =
            assocAuto db fid name) := by
  intro ts
  induction ts with
  | nil =>
      intro db hwf
      refine ⟨hwf, ?_, ?_, ?_⟩ <;> simp
  | cons t rest ih =>
      intro db hwf
      have hwf1 := add_file_tag_wf db fid t (f t) hwf
      obtain ⟨ihwf, ihmem, ihin, ihout⟩ := ih (add_file_tag db fid t (f t)) hwf1
      rw [List.foldl_cons]
      refine ⟨ihwf, ?_, ?_, ?_⟩
      · intro name
        rw [ihmem name, get_file_tags_add db fid t (f t) hwf]
        constructor
        · rintro (h | h)
          · exact Or.inl (List.mem_cons_of_mem _ h)
          · rcases List.mem_append.mp h with h2 | h2
            · exact Or.inr h2
            · cases har : assocRowFor db fid t with
              | some r => rw [har] at h2; cases h2
              | none =>
                  rw [har] at h2
                  simp only [List.mem_singleton] at h2
                  subst h2
                  exact Or.inl (List.mem_cons_self _ _)
        · rintro (h | h)
          · rcases List.mem_cons.mp h with h2 | h2
            · subst h2
              right
              rw [List.mem_append]
              cases har : assocRowFor db fid name with
              | none => right; exact List.mem_singleton.mpr rfl
              | some r => exact Or.inl (mem_gft_of_assocRow db fid name r hwf.2.1 har)
            · exact Or.inl h2
          · exact Or.inr (List.mem_append.mpr (Or.inl h))
      · intro name hname
        rcases List.mem_cons.mp hname with h2 | h2
        · subst h2
          by_cases hr : name ∈ rest
          · rw [ihin name hr, assocAuto_add_same db fid name (f name) hwf]
            cases assocAuto db fid name <;> rfl
          · rw [ihout name hr, assocAuto_add_same db fid name (f name) hwf]
        · by_cases heq : name = t
          · subst heq
            rw [ihin name h2, assocAuto_add_same db fid name (f name) hwf]
            cases assocAuto db fid name <;> rfl
          · rw [ihin name h2, assocAuto_add_other db fid t (f t) name hwf heq]
      · intro name hnotin
        have hnr : name ∉ rest := fun h => hnotin (List.mem_cons_of_mem _ h)
        have hnt : name ≠ t := fun h => hnotin (h ▸ List.mem_cons_self _ _)
        rw [ihout name hnr, assocAuto_add_other db fid t (f t) name hwf hnt]

/-- Shape of a fully successful `download` run: the record is inserted under
the next AUTOINCREMENT id, the auto-tags (from enabled matching rules) and
the explicit tags are folded into the tag tables with the auto flag set
exactly for rule-produced names, and the organizer runs on the fetched
file. -/
theorem download_success_eq (hashBytes : List Nat → String) (cfg : Config)
    (env : FaultEnv) (nowDate : DateYM) (st : PipeState) (url : String)
    (atags : Option (List String)) (p : FsPath) (c : List Nat) (info : FetchInfo)
    (h1 : env.urlCheck = .ok) (h2 : env.mkdir = .ok) (h3 : env.hashRead = .ok)
    (h4 : env.insert = .ok)
    (hurl : check_url_exists st.db url = none)
    (hhash : check_hash_exists st.db (hashBytes c) = none)
    (hfp : st.db.downloads.any (fun r => decide (r.filepath = p)) = false) :
    download hashBytes cfg env (.ok ⟨p, c, info⟩) nowDate st url atags =
      .ok
        ({ db := (get_auto_tags cfg (detect_source url) ++ atags.getD []).foldl
              (fun d t => add_file_tag d st.db.nextDownloadId t
                ((get_auto_tags cfg (detect_source url)).contains t))
              { st.db with
                  downloads := st.db.downloads ++
                    [mkRow st.db url (detect_source url) p
                      (mkMetadata (hashBytes c) c.length info)],
                  nextDownloadId := st.db.nextDownloadId + 1 }
           fs := (organize_file (fsWrite st.fs p (.file c)) cfg.downloadBase p
              (detect_source url)
              (get_auto_tags cfg (detect_source url) ++ atags.getD [])
              nowDate cfg.organizeBySource cfg.organizeByTag cfg.organizeByDate).1
           fetchCount := st.fetchCount + 1 },
         .success "Download complete" st.db.nextDownloadId p (detect_source url)
           (get_auto_tags cfg (detect_source url) ++ atags.getD [])) := by
  have hua : st.db.downloads.any (fun r => decide (r.url = url)) = false := by
    rw [List.any_eq_false]
    exact List.find?_eq_none.mp hurl
  unfold download
  rw [h1]
  simp only [hurl]
  rw [h2]
  simp only [h3]
  rw [contentAt_fsWrite_self]
  simp only [hhash, h4]
  unfold add_download
  simp only [hua, hfp, Bool.false_eq_true, if_false]

/-- C8: On a successful download, the set of tag names associated with the
new record is exactly the union of the tags of enabled auto-tag rules whose
source equals the detected source and the caller's explicit tags, and the
stored association of each such name is marked auto-assigned exactly when it
is produced by a rule. -/
theorem download_success_tag_assignment (hashBytes : List Nat → String)
    (cfg : Config) (env : FaultEnv) (nowDate : DateYM) (st : PipeState)
    (url : String) (atags : Option (List String)) (p : FsPath) (c : List Nat)
    (info : FetchInfo)
    (h1 : env.urlCheck = .ok) (h2 : env.mkdir = .ok) (h3 : env.hashRead = .ok)
    (h4 : env.insert = .ok)
    (hurl : check_url_exists st.db url = none)
    (hhash : check_hash_exists st.db (hashBytes c) = none)
    (hfp : st.db.downloads.any (fun r => decide (r.filepath = p)) = false)
    (hwf : DbWF st.db)
    (hfresh : ∀ ft ∈ st.db.fileTags, ft.fileId ≠ st.db.nextDownloadId) :
    ∃ st' : PipeState,
      download hashBytes cfg env (.ok ⟨p, c, info⟩) nowDate st url atags
        = .ok (st', .success "Download complete" st.db.nextDownloadId p
                 (detect_source url)
                 (get_auto_tags cfg (detect_source url) ++ atags.getD []))
      ∧ (∀ name, name ∈ get_file_tags st'.db st.db.nextDownloadId ↔
           name ∈ get_auto_tags cfg (detect_source url) ++ atags.getD [])
      ∧ (∀ name ∈ get_auto_tags cfg (detect_source url) ++ atags.getD [],
           assocAuto st'.db st.db.nextDownloadId name =
             some ((get_auto_tags cfg (detect_source url)).contains name)) := by
  refine ⟨_, download_success_eq hashBytes cfg env nowDate st url atags p c info
    h1 h2 h3 h4 hurl hhash hfp, ?_, ?_⟩ <;>
  · obtain ⟨hwf3, hmem3, hin3, hout3⟩ :=
      tag_fold_spec st.db.nextDownloadId
        (fun t => (get_auto_tags cfg (detect_source url)).contains t)
        (get_auto_tags cfg (detect_source url) ++ atags.getD [])
        { st.db with
            downloads := st.db.downloads ++
              [mkRow st.db url (detect_source url) p
                (mkMetadata (hashBytes c) c.length info)],
            nextDownloadId := st.db.nextDownloadId + 1 }
        hwf
    have hgft0 : get_file_tags
        { st.db with
            downloads := st.db.downloads ++
              [mkRow st.db url (detect_source url) p
                (mkMetadata (hashBytes c) c.length info)],
            nextDownloadId := st.db.nextDownloadId + 1 }
        st.db.nextDownloadId = [] := by
      unfold get_file_tags
      have hfilter : st.db.fileTags.filter
          (fun ft => decide (ft.fileId = st.db.nextDownloadId)) = [] := by
        rw [List.filter_eq_nil_iff]
        intro ft hft
        simp only [decide_eq_true_eq]
        exact hfresh ft hft
      rw [hfilter]
      rfl
    have hass0 : ∀ name, assocAuto
        { st.db with
            downloads := st.db.downloads ++
              [mkRow st.db url (detect_source url) p
                (mkMetadata (hashBytes c) c.length info)],
            nextDownloadId := st.db.nextDownloadId + 1 }
        st.db.nextDownloadId name = none := by
      intro name
      unfold assocAuto assocRowFor
      cases htg : tagIdOf
          { st.db with
              downloads := st.db.downloads ++
                [mkRow st.db url (detect_source url) p
                  (mkMetadata (hashBytes c) c.length info)],
              nextDownloadId := st.db.nextDownloadId + 1 } name with
      | none => rfl
      | some tid =>
          have hnone : st.db.fileTags.find?
              (fun ft => decide (ft.fileId = st.db.nextDownloadId ∧ ft.tagId = tid))
                = none := by
            rw [List.find?_eq_none]
            intro ft hft
            simp only [decide_eq_true_eq, not_and]
            intro h
            exact absurd h (hfresh ft hft)
          simp only [Option.map_eq_none']
          exact hnone
    first
    | · intro name
        refine (hmem3 name).trans ?_
        rw [hgft0]
        simp
    | · intro name hname
        have hthis := hin3 name hname
        rw [hass0 name] at hthis
        exact hthis

/-- An empty pipeline state for the C8 witness. -/
def stW : PipeState :=
  { db := { downloads := [], nextDownloadId := 1, tags := [], nextTagId := 1,
            fileTags := [] }
    fs := []
    fetchCount := 0 }

/-- Witness for C8: the spec scenario — downloading
`https://youtube.com/watch?v=abc` with explicit tag `demo` under the enabled
rule youtube→youtube yields tags `{"youtube", "demo"}` with `youtube` marked
auto-assigned and `demo` not. -/
theorem download_success_tag_assignment_witness :
    ∃ st' : PipeState,
      download constHash cfgP noFaults
          (.ok ⟨["root", "downloads", "abc.mp4"], [1, 2],
                ⟨none, none, none, none, none, none, none, none⟩⟩)
          ⟨2024, 3⟩ stW "https://youtube.com/watch?v=abc" (some ["demo"])
        = .ok (st', .success "Download complete" 1
                 ["root", "downloads", "abc.mp4"] "youtube" ["youtube", "demo"])
      ∧ (∀ name, name ∈ get_file_tags st'.db 1 ↔ name ∈ ["youtube", "demo"])
      ∧ (∀ name ∈ ["youtube", "demo"],
           assocAuto st'.db 1 name = some (["youtube"].contains name)) := by
  have h := download_success_tag_assignment constHash cfgP noFaults ⟨2024, 3⟩ stW
    "https://youtube.com/watch?v=abc" (some ["demo"])
    ["root", "downloads", "abc.mp4"] [1, 2]
    ⟨none, none, none, none, none, none, none, none⟩
    rfl rfl rfl rfl (by decide) (by decide) (by decide)
    (by unfold DbWF; decide) (by decide)
  have hds : detect_source "https://youtube.com/watch?v=abc" = "youtube" := by decide
  have hat : get_auto_tags cfgP "youtube" = ["youtube"] := by decide
  rw [hds, hat] at h
  simpa [stW] using h

/-! ## Path arithmetic: relative symlink targets resolve back to the source -/

/-- `..` components pop the accumulator one by one. -/
theorem normalizeAux_updirs (k : Nat) :
    ∀ (acc rest : List String),
      normalizeAux acc (List.replicate k ".." ++ rest) =
        normalizeAux (acc.drop k) rest := by
  induction k with
  | zero => intro acc rest; rfl
  | succ n ih =>
      intro acc rest
      rw [List.replicate_succ, List.cons_append]
      simp only [normalizeAux, if_true]
      rw [ih]
      congr 1
      rw [← List.drop_one, List.drop_drop, Nat.add_comm]

/-- Components that are not `..` are pushed onto the accumulator in order. -/
theorem normalizeAux_clean :
    ∀ (l acc rest : List String), (∀ x ∈ l, x ≠ "..") →
      normalizeAux acc (l ++ rest) = normalizeAux (l.reverse ++ acc) rest := by
  intro l
  induction l with
  | nil => intro acc rest _; rfl
  | cons c cs ih =>
      intro acc rest hcl
      rw [List.cons_append]
      simp only [normalizeAux]
      rw [if_neg (hcl c (List.mem_cons_self _ _))]
      rw [ih (c :: acc) rest (fun x hx => hcl x (List.mem_cons_of_mem _ hx))]
      congr 1
      rw [List.reverse_cons, List.append_assoc]
      rfl

/-- Normalizing a path with no `..` components only reverses the
accumulator in front of it. -/
theorem normalizeAux_clean_nil (l acc : List String) (hl : ∀ x ∈ l, x ≠ "..") :
    normalizeAux acc l = acc.reverse ++ l := by
  have h := normalizeAux_clean l acc [] hl
  rw [List.append_nil] at h
  rw [h]
  show (l.reverse ++ acc).reverse = acc.reverse ++ l
  rw [List.reverse_append, List.reverse_reverse]

/-- A shared prefix contributes its length to the common-prefix count. -/
theorem commonPrefixLen_append (b : List String) :
    ∀ (l1 l2 : List String),
      commonPrefixLen (b ++ l1) (b ++ l2) = b.length + commonPrefixLen l1 l2 := by
  induction b with
  | nil => intro l1 l2; simp
  | cons c cs ih =>
      intro l1 l2
      simp only [List.cons_append, commonPrefixLen, eq_self_iff_true, if_true,
        List.length_cons]
      rw [show cs.append l1 = cs ++ l1 from rfl, show cs.append l2 = cs ++ l2 from rfl, ih]
      omega

/-- Distinct heads share no prefix. -/
theorem commonPrefixLen_ne (a b : String) (l1 l2 : List String) (h : ¬ (a = b)) :
    commonPrefixLen (a :: l1) (b :: l2) = 0 := by
  simp [commonPrefixLen, h]

/-- The core round trip: a relative symlink target computed by
`os.path.relpath` leads back to the source file when resolved against the
link's directory, provided no component of the involved paths is `..` and
the common prefix of the two paths is exactly `base`. -/
theorem normalize_relpath (base s d : List String)
    (hbase : ∀ x ∈ base, x ≠ "..") (hs : ∀ x ∈ s, x ≠ "..")
    (hd : ∀ x ∈ d, x ≠ "..")
    (hk : commonPrefixLen (base ++ d) (base ++ s) = base.length) :
    normalize ((base ++ s) ++ relpath (base ++ d) (base ++ s)) = base ++ d := by
  have hlen : (base ++ s).length - base.length = s.length := by simp
  simp only [relpath]
  rw [hk, hlen, List.drop_left]
  unfold normalize
  have hcleanbs : ∀ x ∈ base ++ s, x ≠ ".." := by
    intro x hx
    rcases List.mem_append.mp hx with h | h
    · exact hbase x h
    · exact hs x h
  rw [normalizeAux_clean (base ++ s) [] _ hcleanbs, List.append_nil,
    normalizeAux_updirs]
  have hdrop : ((base ++ s).reverse).drop s.length = base.reverse := by
    rw [List.reverse_append]
    have : s.reverse.length = s.length := List.length_reverse s
    rw [← this, List.drop_left]
  rw [hdrop, normalizeAux_clean_nil d base.reverse hd, List.reverse_reverse]

/-! ## C6: idempotence of placements -/

/-- Number of entries stored under a path key. -/
def countKey (fs : Fs) (p : FsPath) : Nat :=
  (fs.filter (fun kv => decide (kv.1 = p))).length

/-- Removing a key twice is the same as removing it once. -/
theorem fsRemove_idem (fs : Fs) (p : FsPath) :
    fsRemove (fsRemove fs p) p = fsRemove fs p := by
  unfold fsRemove
  rw [List.filter_filter]
  simp

/-- Writing the same key twice keeps only the last entry. -/
theorem fsWrite_twice (fs : Fs) (p : FsPath) (e e' : FsEntry) :
    fsWrite (fsWrite fs p e) p e' = fsWrite fs p e' := by
  conv_lhs => rw [fsWrite]
  rw [fsRemove_fsWrite_self]
  rfl

/-- After a write there is exactly one entry under the written key. -/
theorem countKey_fsWrite_self (fs : Fs) (p : FsPath) (e : FsEntry) :
    countKey (fsWrite fs p e) p = 1 := by
  unfold countKey fsWrite
  rw [List.filter_append]
  have h1 : (fsRemove fs p).filter (fun kv => decide (kv.1 = p)) = [] := by
    rw [List.filter_eq_nil_iff]
    intro kv hkv
    unfold fsRemove at hkv
    have h2 := List.of_mem_filter hkv
    simp only [decide_eq_true_eq] at h2 ⊢
    exact h2
  rw [h1]
  simp

/-- When no regular file occupies the link path, `create_symlink` (re)creates
the relative link and reports success. -/
theorem create_symlink_not_file (fs : Fs) (src link : FsPath)
    (h : ∀ bs, lookupFs fs link ≠ some (.file bs)) :
    create_symlink fs src link =
      (fsWrite fs link (.symlink (.rel (relpath src link.dropLast))), true) := by
  unfold create_symlink
  cases hl : lookupFs fs link with
  | none =>
      have hsym : isSymlinkAt fs link = false := by simp [isSymlinkAt, hl]
      rw [hsym]
      simp [hl]
  | some e =>
      cases e with
      | file bs => exact absurd hl (h bs)
      | symlink t =>
          have hsym : isSymlinkAt fs link = true := by simp [isSymlinkAt, hl]
          rw [hsym]
          simp only [if_true]
          rw [fsWrite]
          rw [fsRemove_idem]
          rfl

/-- Resolving a one-hop symlink chain to a real file. -/
theorem resolve_two_step (fs : Fs) (link p : FsPath) (rel : List String)
    (bs : List Nat)
    (hlink : lookupFs fs link = some (.symlink (.rel rel)))
    (hhop : normalize (link.dropLast ++ rel) = p)
    (hp : lookupFs fs p = some (.file bs)) :
    resolvePath fs (fs.length + 1) link = some p := by
  obtain ⟨m, hm⟩ : ∃ m, fs.length = m + 1 := by
    cases fs with
    | nil => simp [lookupFs] at hlink
    | cons a l => exact ⟨l.length, rfl⟩
  rw [hm]
  simp only [resolvePath, hlink]
  have hhop' : hopTarget link (.rel rel) = p := by
    simp only [hopTarget]
    exact hhop
  rw [hhop']
  simp only [resolvePath, hp]

/-- The final component of a path of the form `base ++ [a, n]`. -/
theorem lastComp_append_two (base : FsPath) (a n : String) :
    lastComp (base ++ [a, n]) = n := by
  unfold lastComp
  rw [show base ++ [a, n] = (base ++ [a]) ++ [n] by rw [List.append_assoc]; rfl]
  rw [List.getLast?_concat]
  rfl

/-- C6: `organize_by_source` is idempotent — with the real file at
`<base>/downloads/<name>` and no regular file squatting on the link slot,
the first call succeeds, the second call succeeds and leaves the filesystem
exactly as after the first (the old link is replaced, not accumulated and
not an error), exactly one entry sits at the target path, and the link still
resolves to the real file. -/
theorem placeBySource_idempotent (fs : Fs) (base : FsPath) (name src : String)
    (bs : List Nat)
    (hbase : ∀ x ∈ base, x ≠ "..") (hsrc : ¬ (src = ".."))
    (hname : ¬ (name = ".."))
    (hfile : lookupFs fs (base ++ ["downloads", name]) = some (.file bs))
    (hslot : ∀ bs', lookupFs fs (base ++ ["by-source", src, name])
        ≠ some (.file bs')) :
    (organize_by_source fs base (base ++ ["downloads", name]) src).2 = true
  ∧ organize_by_source
        (organize_by_source fs base (base ++ ["downloads", name]) src).1
        base (base ++ ["downloads", name]) src
      = ((organize_by_source fs base (base ++ ["downloads", name]) src).1, true)
  ∧ countKey (organize_by_source fs base (base ++ ["downloads", name]) src).1
      (base ++ ["by-source", src, name]) = 1
  ∧ resolvePath (organize_by_source fs base (base ++ ["downloads", name]) src).1
      ((organize_by_source fs base (base ++ ["downloads", name]) src).1.length + 1)
      (base ++ ["by-source", src, name])
      = some (base ++ ["downloads", name]) := by
  have hlast : lastComp (base ++ ["downloads", name]) = name :=
    lastComp_append_two base "downloads" name
  have htarget : sourceLinkPath base src (base ++ ["downloads", name])
      = base ++ ["by-source", src, name] := by
    unfold sourceLinkPath
    rw [hlast]
  set e := FsEntry.symlink (.rel (relpath (base ++ ["downloads", name])
    (base ++ ["by-source", src, name]).dropLast)) with he
  have hr1 : organize_by_source fs base (base ++ ["downloads", name]) src =
      (fsWrite fs (base ++ ["by-source", src, name]) e, true) := by
    unfold organize_by_source
    rw [htarget]
    exact create_symlink_not_file fs _ _ hslot
  have hne : base ++ ["downloads", name] ≠ base ++ ["by-source", src, name] := by
    intro h
    have := congrArg List.length h
    simp at this
  have hlookup1 : lookupFs (fsWrite fs (base ++ ["by-source", src, name]) e)
      (base ++ ["by-source", src, name]) = some e := by
    rw [lookupFs_fsWrite]
    simp
  have hdropl : (base ++ ["by-source", src, name]).dropLast
      = base ++ ["by-source", src] := by
    rw [show base ++ ["by-source", src, name]
        = (base ++ ["by-source", src]) ++ [name] by rw [List.append_assoc]; rfl]
    exact List.dropLast_concat
  have hs' : ∀ x ∈ (["by-source", src] : List String), x ≠ ".." := by
    intro x hx
    rcases List.mem_cons.mp hx with h | h
    · subst h; decide
    · simp only [List.mem_singleton] at h; subst h; exact hsrc
  have hd' : ∀ x ∈ (["downloads", name] : List String), x ≠ ".." := by
    intro x hx
    rcases List.mem_cons.mp hx with h | h
    · subst h; decide
    · simp only [List.mem_singleton] at h; subst h; exact hname
  have hk : commonPrefixLen (base ++ ["downloads", name])
      (base ++ ["by-source", src]) = base.length := by
    rw [commonPrefixLen_append]
    rw [commonPrefixLen_ne "downloads" "by-source" _ _ (by decide)]
    omega
  have hhop : normalize ((base ++ ["by-source", src, name]).dropLast ++
      relpath (base ++ ["downloads", name])
        (base ++ ["by-source", src, name]).dropLast)
      = base ++ ["downloads", name] := by
    rw [hdropl]
    exact normalize_relpath base ["by-source", src] ["downloads", name]
      hbase hs' hd' hk
  refine ⟨by rw [hr1], ?_, ?_, ?_⟩
  · rw [hr1]
    unfold organize_by_source
    rw [htarget]
    have hnofile : ∀ bs', lookupFs (fsWrite fs (base ++ ["by-source", src, name]) e)
        (base ++ ["by-source", src, name]) ≠ some (.file bs') := by
      intro bs' hcontra
      rw [hlookup1] at hcontra
      simp [he] at hcontra
    rw [create_symlink_not_file _ _ _ hnofile]
    rw [fsWrite_twice]
  · rw [hr1]
    exact countKey_fsWrite_self fs _ e
  · rw [hr1]
    refine resolve_two_step _ _ _ _ bs hlookup1 hhop ?_
    rw [lookupFs_fsWrite]
    rw [if_neg hne]
    exact hfile

/-- A filesystem with one real file for the C6 witness. -/
def fsC6 : Fs := [(["root", "downloads", "v.mp4"], .file [9])]

/-- Witness for C6 at a concrete filesystem. -/
theorem placeBySource_idempotent_witness :
    (organize_by_source fsC6 ["root"] ["root", "downloads", "v.mp4"] "youtube").2 = true
  ∧ organize_by_source
        (organize_by_source fsC6 ["root"] ["root", "downloads", "v.mp4"] "youtube").1
        ["root"] ["root", "downloads", "v.mp4"] "youtube"
      = ((organize_by_source fsC6 ["root"] ["root", "downloads", "v.mp4"] "youtube").1,
         true)
  ∧ countKey
      (organize_by_source fsC6 ["root"] ["root", "downloads", "v.mp4"] "youtube").1
      ["root", "by-source", "youtube", "v.mp4"] = 1
  ∧ resolvePath
      (organize_by_source fsC6 ["root"] ["root", "downloads", "v.mp4"] "youtube").1
      ((organize_by_source fsC6 ["root"] ["root", "downloads", "v.mp4"] "youtube").1.length + 1)
      ["root", "by-source", "youtube", "v.mp4"]
      = some ["root", "downloads", "v.mp4"] :=
  placeBySource_idempotent fsC6 ["root"] "v.mp4" "youtube" [9]
    (by decide) (by decide) (by decide) (by decide)
    (by
      intro bs' h
      rw [show lookupFs fsC6 (["root"] ++ ["by-source", "youtube", "v.mp4"]) = none
        from rfl] at h
      exact Option.noConfusion h)

/-! ## C7: placeAll round trip -/

/-- Splitting off the final component of a three-component link path. -/
theorem linkPath_decomp (base : FsPath) (a b n : String) :
    base ++ [a, b, n] = (base ++ [a, b]) ++ [n] := by
  rw [List.append_assoc]
  rfl

/-- The parent directory of a three-component link path. -/
theorem linkPath_dropLast (base : FsPath) (a b n : String) :
    (base ++ [a, b, n]).dropLast = base ++ [a, b] := by
  rw [linkPath_decomp]
  exact List.dropLast_concat

/-- Two link paths under a common base differ when their namespace or key
differ. -/
theorem linkPath_ne (base : FsPath) (a b a' b' n : String)
    (h : ¬ (a = a' ∧ b = b')) :
    base ++ [a, b, n] ≠ base ++ [a', b', n] := by
  intro he
  have h2 := List.append_cancel_left he
  simp only [List.cons.injEq] at h2
  exact h ⟨h2.1, h2.2.1⟩

/-- The real file path differs from every three-component link path. -/
theorem realPath_ne_linkPath (base : FsPath) (a b n m : String) :
    base ++ [m, n] ≠ base ++ [a, b, n] := by
  intro h
  have hl := congrArg List.length h
  simp at hl

/-- The relative target stored for a placement resolves back to the real
file at `<base>/downloads/<name>`. -/
theorem link_hop_resolves (base : FsPath) (a b name : String)
    (hbase : ∀ x ∈ base, x ≠ "..") (ha : ¬ (a = "..")) (hb : ¬ (b = ".."))
    (hname : ¬ (name = "..")) (hhead : ¬ ("downloads" = a)) :
    normalize ((base ++ [a, b, name]).dropLast ++
        relpath (base ++ ["downloads", name]) (base ++ [a, b]))
      = base ++ ["downloads", name] := by
  rw [linkPath_dropLast]
  have hs' : ∀ x ∈ ([a, b] : List String), x ≠ ".." := by
    intro x hx
    rcases List.mem_cons.mp hx with h | h
    · subst h; exact ha
    · simp only [List.mem_singleton] at h; subst h; exact hb
  have hd' : ∀ x ∈ (["downloads", name] : List String), x ≠ ".." := by
    intro x hx
    rcases List.mem_cons.mp hx with h | h
    · subst h; decide
    · simp only [List.mem_singleton] at h; subst h; exact hname
  have hk : commonPrefixLen (base ++ ["downloads", name]) (base ++ [a, b])
      = base.length := by
    rw [commonPrefixLen_append, commonPrefixLen_ne "downloads" a _ _ hhead]
    omega
  exact normalize_relpath base [a, b] ["downloads", name] hbase hs' hd' hk

/-- C7: after `organize_file` with all three axes enabled for the real file
`<base>/downloads/<name>` with source `youtube`, tags `{"x", "y"}` and date
2024-03, the result map reports success on every axis, and each of the four
links `by-source/youtube/<name>`, `by-tag/x/<name>`, `by-tag/y/<name>`,
`by-date/2024-03/<name>` exists, is a relative symlink, and resolves to the
same real file. -/
theorem placeAll_round_trip (fs : Fs) (base : FsPath) (name : String)
    (bs : List Nat)
    (hbase : ∀ x ∈ base, x ≠ "..") (hname : ¬ (name = ".."))
    (hfile : lookupFs fs (base ++ ["downloads", name]) = some (.file bs))
    (hs1 : ∀ c, lookupFs fs (base ++ ["by-source", "youtube", name]) ≠ some (.file c))
    (hs2 : ∀ c, lookupFs fs (base ++ ["by-tag", "x", name]) ≠ some (.file c))
    (hs3 : ∀ c, lookupFs fs (base ++ ["by-tag", "y", name]) ≠ some (.file c))
    (hs4 : ∀ c, lookupFs fs (base ++ ["by-date", "2024-03", name]) ≠ some (.file c))
    :
    (organize_file fs base (base ++ ["downloads", name]) "youtube" ["x", "y"] ⟨2024, 3⟩ true true true).2
      = ⟨some true, some [("x", true), ("y", true)], some true⟩
  ∧ ∀ t ∈ [base ++ ["by-source", "youtube", name], base ++ ["by-tag", "x", name],
      base ++ ["by-tag", "y", name], base ++ ["by-date", "2024-03", name]],
      (∃ r, lookupFs (organize_file fs base (base ++ ["downloads", name]) "youtube" ["x", "y"]
          ⟨2024, 3⟩ true true true).1 t = some (.symlink (.rel r)))
      ∧ resolvePath (organize_file fs base (base ++ ["downloads", name]) "youtube" ["x", "y"]
          ⟨2024, 3⟩ true true true).1
          ((organize_file fs base (base ++ ["downloads", name]) "youtube" ["x", "y"]
            ⟨2024, 3⟩ true true true).1.length + 1) t
          = some (base ++ ["downloads", name]) := by
  have hlast : lastComp (base ++ ["downloads", name]) = name :=
    lastComp_append_two base "downloads" name
  have hfmt : formatYM ⟨2024, 3⟩ = "2024-03" := by decide
  have hne21 : (base ++ ["by-tag", "x", name]) ≠ (base ++ ["by-source", "youtube", name]) :=
    linkPath_ne base "by-tag" "x" "by-source" "youtube" name (by decide)
  have hne31 : (base ++ ["by-tag", "y", name]) ≠ (base ++ ["by-source", "youtube", name]) :=
    linkPath_ne base "by-tag" "y" "by-source" "youtube" name (by decide)
  have hne32 : (base ++ ["by-tag", "y", name]) ≠ (base ++ ["by-tag", "x", name]) :=
    linkPath_ne base "by-tag" "y" "by-tag" "x" name (by decide)
  have hne41 : (base ++ ["by-date", "2024-03", name]) ≠ (base ++ ["by-source", "youtube", name]) :=
    linkPath_ne base "by-date" "2024-03" "by-source" "youtube" name (by decide)
  have hne42 : (base ++ ["by-date", "2024-03", name]) ≠ (base ++ ["by-tag", "x", name]) :=
    linkPath_ne base "by-date" "2024-03" "by-tag" "x" name (by decide)
  have hne43 : (base ++ ["by-date", "2024-03", name]) ≠ (base ++ ["by-tag", "y", name]) :=
    linkPath_ne base "by-date" "2024-03" "by-tag" "y" name (by decide)
  have hnep1 : (base ++ ["downloads", name]) ≠ (base ++ ["by-source", "youtube", name]) :=
    realPath_ne_linkPath base "by-source" "youtube" name "downloads"
  have hnep2 : (base ++ ["downloads", name]) ≠ (base ++ ["by-tag", "x", name]) :=
    realPath_ne_linkPath base "by-tag" "x" name "downloads"
  have hnep3 : (base ++ ["downloads", name]) ≠ (base ++ ["by-tag", "y", name]) :=
    realPath_ne_linkPath base "by-tag" "y" name "downloads"
  have hnep4 : (base ++ ["downloads", name]) ≠ (base ++ ["by-date", "2024-03", name]) :=
    realPath_ne_linkPath base "by-date" "2024-03" name "downloads"
  have hne12 := hne21.symm
  have hne13 := hne31.symm
  have hne23 := hne32.symm
  have hne14 := hne41.symm
  have hne24 := hne42.symm
  have hne34 := hne43.symm
  have hc1 : organize_by_source fs base (base ++ ["downloads", name]) "youtube"
      = (fsWrite fs (base ++ ["by-source", "youtube", name]) (FsEntry.symlink (.rel (relpath (base ++ ["downloads", name]) (base ++ ["by-source", "youtube"])))), true) := by
    unfold organize_by_source sourceLinkPath
    rw [hlast, create_symlink_not_file fs _ _ hs1, linkPath_dropLast]
  have hs2' : ∀ c, lookupFs (fsWrite fs (base ++ ["by-source", "youtube", name]) (FsEntry.symlink (.rel (relpath (base ++ ["downloads", name]) (base ++ ["by-source", "youtube"]))))) (base ++ ["by-tag", "x", name]) ≠ some (.file c) := by
    intro c
    rw [lookupFs_fsWrite, if_neg hne21]
    exact hs2 c
  have hc2 : organize_by_tag (fsWrite fs (base ++ ["by-source", "youtube", name]) (FsEntry.symlink (.rel (relpath (base ++ ["downloads", name]) (base ++ ["by-source", "youtube"]))))) base (base ++ ["downloads", name]) "x"
      = (fsWrite (fsWrite fs (base ++ ["by-source", "youtube", name]) (FsEntry.symlink (.rel (relpath (base ++ ["downloads", name]) (base ++ ["by-source", "youtube"]))))) (base ++ ["by-tag", "x", name]) (FsEntry.symlink (.rel (relpath (base ++ ["downloads", name]) (base ++ ["by-tag", "x"])))), true) := by
    unfold organize_by_tag tagLinkPath
    rw [hlast, create_symlink_not_file _ _ _ hs2', linkPath_dropLast]
  have hs3' : ∀ c, lookupFs (fsWrite (fsWrite fs (base ++ ["by-source", "youtube", name]) (FsEntry.symlink (.rel (relpath (base ++ ["downloads", name]) (base ++ ["by-source", "youtube"]))))) (base ++ ["by-tag", "x", name]) (FsEntry.symlink (.rel (relpath (base ++ ["downloads", name]) (base ++ ["by-tag", "x"]))))) (base ++ ["by-tag", "y", name]) ≠ some (.file c) := by
    intro c
    rw [lookupFs_fsWrite, if_neg hne32, lookupFs_fsWrite, if_neg hne31]
    exact hs3 c
  have hc3 : organize_by_tag (fsWrite (fsWrite fs (base ++ ["by-source", "youtube", name]) (FsEntry.symlink (.rel (relpath (base ++ ["downloads", name]) (base ++ ["by-source", "youtube"]))))) (base ++ ["by-tag", "x", name]) (FsEntry.symlink (.rel (relpath (base ++ ["downloads", name]) (base ++ ["by-tag", "x"]))))) base (base ++ ["downloads", name]) "y"
      = (fsWrite (fsWrite (fsWrite fs (base ++ ["by-source", "youtube", name]) (FsEntry.symlink (.rel (relpath (base ++ ["downloads", name]) (base ++ ["by-source", "youtube"]))))) (base ++ ["by-tag", "x", name]) (FsEntry.symlink (.rel (relpath (base ++ ["downloads", name]) (base ++ ["by-tag", "x"]))))) (base ++ ["by-tag", "y", name]) (FsEntry.symlink (.rel (relpath (base ++ ["downloads", name]) (base ++ ["by-tag", "y"])))), true) := by
    unfold organize_by_tag tagLinkPath
    rw [hlast, create_symlink_not_file _ _ _ hs3', linkPath_dropLast]
  have hs4' : ∀ c, lookupFs (fsWrite (fsWrite (fsWrite fs (base ++ ["by-source", "youtube", name]) (FsEntry.symlink (.rel (relpath (base ++ ["downloads", name]) (base ++ ["by-source", "youtube"]))))) (base ++ ["by-tag", "x", name]) (FsEntry.symlink (.rel (relpath (base ++ ["downloads", name]) (base ++ ["by-tag", "x"]))))) (base ++ ["by-tag", "y", name]) (FsEntry.symlink (.rel (relpath (base ++ ["downloads", name]) (base ++ ["by-tag", "y"]))))) (base ++ ["by-date", "2024-03", name]) ≠ some (.file c) := by
    intro c
    rw [lookupFs_fsWrite, if_neg hne43, lookupFs_fsWrite, if_neg hne42,
      lookupFs_fsWrite, if_neg hne41]
    exact hs4 c
  have hc4 : organize_by_date (fsWrite (fsWrite (fsWrite fs (base ++ ["by-source", "youtube", name]) (FsEntry.symlink (.rel (relpath (base ++ ["downloads", name]) (base ++ ["by-source", "youtube"]))))) (base ++ ["by-tag", "x", name]) (FsEntry.symlink (.rel (relpath (base ++ ["downloads", name]) (base ++ ["by-tag", "x"]))))) (base ++ ["by-tag", "y", name]) (FsEntry.symlink (.rel (relpath (base ++ ["downloads", name]) (base ++ ["by-tag", "y"]))))) base (base ++ ["downloads", name]) ⟨2024, 3⟩
      = (fsWrite (fsWrite (fsWrite (fsWrite fs (base ++ ["by-source", "youtube", name]) (FsEntry.symlink (.rel (relpath (base ++ ["downloads", name]) (base ++ ["by-source", "youtube"]))))) (base ++ ["by-tag", "x", name]) (FsEntry.symlink (.rel (relpath (base ++ ["downloads", name]) (base ++ ["by-tag", "x"]))))) (base ++ ["by-tag", "y", name]) (FsEntry.symlink (.rel (relpath (base ++ ["downloads", name]) (base ++ ["by-tag", "y"]))))) (base ++ ["by-date", "2024-03", name]) (FsEntry.symlink (.rel (relpath (base ++ ["downloads", name]) (base ++ ["by-date", "2024-03"])))), true) := by
    unfold organize_by_date dateLinkPath
    rw [hlast, hfmt, create_symlink_not_file _ _ _ hs4', linkPath_dropLast]
  have hres : organize_file fs base (base ++ ["downloads", name]) "youtube" ["x", "y"]
      ⟨2024, 3⟩ true true true
      = (fsWrite (fsWrite (fsWrite (fsWrite fs (base ++ ["by-source", "youtube", name]) (FsEntry.symlink (.rel (relpath (base ++ ["downloads", name]) (base ++ ["by-source", "youtube"]))))) (base ++ ["by-tag", "x", name]) (FsEntry.symlink (.rel (relpath (base ++ ["downloads", name]) (base ++ ["by-tag", "x"]))))) (base ++ ["by-tag", "y", name]) (FsEntry.symlink (.rel (relpath (base ++ ["downloads", name]) (base ++ ["by-tag", "y"]))))) (base ++ ["by-date", "2024-03", name]) (FsEntry.symlink (.rel (relpath (base ++ ["downloads", name]) (base ++ ["by-date", "2024-03"])))),
         ⟨some true, some [("x", true), ("y", true)], some true⟩) := by
    simp only [organize_file, organizeTagsLoop, eq_self_iff_true, if_true,
      hc1, hc2, hc3, hc4]
  have l4 : lookupFs (fsWrite (fsWrite (fsWrite (fsWrite fs (base ++ ["by-source", "youtube", name]) (FsEntry.symlink (.rel (relpath (base ++ ["downloads", name]) (base ++ ["by-source", "youtube"]))))) (base ++ ["by-tag", "x", name]) (FsEntry.symlink (.rel (relpath (base ++ ["downloads", name]) (base ++ ["by-tag", "x"]))))) (base ++ ["by-tag", "y", name]) (FsEntry.symlink (.rel (relpath (base ++ ["downloads", name]) (base ++ ["by-tag", "y"]))))) (base ++ ["by-date", "2024-03", name]) (FsEntry.symlink (.rel (relpath (base ++ ["downloads", name]) (base ++ ["by-date", "2024-03"]))))) (base ++ ["by-date", "2024-03", name]) = some (FsEntry.symlink (.rel (relpath (base ++ ["downloads", name]) (base ++ ["by-date", "2024-03"])))) := by
    rw [lookupFs_fsWrite, if_pos rfl]
  have l3 : lookupFs (fsWrite (fsWrite (fsWrite (fsWrite fs (base ++ ["by-source", "youtube", name]) (FsEntry.symlink (.rel (relpath (base ++ ["downloads", name]) (base ++ ["by-source", "youtube"]))))) (base ++ ["by-tag", "x", name]) (FsEntry.symlink (.rel (relpath (base ++ ["downloads", name]) (base ++ ["by-tag", "x"]))))) (base ++ ["by-tag", "y", name]) (FsEntry.symlink (.rel (relpath (base ++ ["downloads", name]) (base ++ ["by-tag", "y"]))))) (base ++ ["by-date", "2024-03", name]) (FsEntry.symlink (.rel (relpath (base ++ ["downloads", name]) (base ++ ["by-date", "2024-03"]))))) (base ++ ["by-tag", "y", name]) = some (FsEntry.symlink (.rel (relpath (base ++ ["downloads", name]) (base ++ ["by-tag", "y"])))) := by
    rw [lookupFs_fsWrite, if_neg hne34, lookupFs_fsWrite, if_pos rfl]
  have l2 : lookupFs (fsWrite (fsWrite (fsWrite (fsWrite fs (base ++ ["by-source", "youtube", name]) (FsEntry.symlink (.rel (relpath (base ++ ["downloads", name]) (base ++ ["by-source", "youtube"]))))) (base ++ ["by-tag", "x", name]) (FsEntry.symlink (.rel (relpath (base ++ ["downloads", name]) (base ++ ["by-tag", "x"]))))) (base ++ ["by-tag", "y", name]) (FsEntry.symlink (.rel (relpath (base ++ ["downloads", name]) (base ++ ["by-tag", "y"]))))) (base ++ ["by-date", "2024-03", name]) (FsEntry.symlink (.rel (relpath (base ++ ["downloads", name]) (base ++ ["by-date", "2024-03"]))))) (base ++ ["by-tag", "x", name]) = some (FsEntry.symlink (.rel (relpath (base ++ ["downloads", name]) (base ++ ["by-tag", "x"])))) := by
    rw [lookupFs_fsWrite, if_neg hne24, lookupFs_fsWrite, if_neg hne23,
      lookupFs_fsWrite, if_pos rfl]
  have l1 : lookupFs (fsWrite (fsWrite (fsWrite (fsWrite fs (base ++ ["by-source", "youtube", name]) (FsEntry.symlink (.rel (relpath (base ++ ["downloads", name]) (base ++ ["by-source", "youtube"]))))) (base ++ ["by-tag", "x", name]) (FsEntry.symlink (.rel (relpath (base ++ ["downloads", name]) (base ++ ["by-tag", "x"]))))) (base ++ ["by-tag", "y", name]) (FsEntry.symlink (.rel (relpath (base ++ ["downloads", name]) (base ++ ["by-tag", "y"]))))) (base ++ ["by-date", "2024-03", name]) (FsEntry.symlink (.rel (relpath (base ++ ["downloads", name]) (base ++ ["by-date", "2024-03"]))))) (base ++ ["by-source", "youtube", name]) = some (FsEntry.symlink (.rel (relpath (base ++ ["downloads", name]) (base ++ ["by-source", "youtube"])))) := by
    rw [lookupFs_fsWrite, if_neg hne14, lookupFs_fsWrite, if_neg hne13,
      lookupFs_fsWrite, if_neg hne12, lookupFs_fsWrite, if_pos rfl]
  have lp : lookupFs (fsWrite (fsWrite (fsWrite (fsWrite fs (base ++ ["by-source", "youtube", name]) (FsEntry.symlink (.rel (relpath (base ++ ["downloads", name]) (base ++ ["by-source", "youtube"]))))) (base ++ ["by-tag", "x", name]) (FsEntry.symlink (.rel (relpath (base ++ ["downloads", name]) (base ++ ["by-tag", "x"]))))) (base ++ ["by-tag", "y", name]) (FsEntry.symlink (.rel (relpath (base ++ ["downloads", name]) (base ++ ["by-tag", "y"]))))) (base ++ ["by-date", "2024-03", name]) (FsEntry.symlink (.rel (relpath (base ++ ["downloads", name]) (base ++ ["by-date", "2024-03"]))))) (base ++ ["downloads", name]) = some (.file bs) := by
    rw [lookupFs_fsWrite, if_neg hnep4, lookupFs_fsWrite, if_neg hnep3,
      lookupFs_fsWrite, if_neg hnep2, lookupFs_fsWrite, if_neg hnep1]
    exact hfile
  have hop1 : normalize ((base ++ ["by-source", "youtube", name]).dropLast ++
      relpath (base ++ ["downloads", name]) (base ++ ["by-source", "youtube"])) = base ++ ["downloads", name] :=
    link_hop_resolves base "by-source" "youtube" name hbase (by decide) (by decide)
      hname (by decide)
  have hop2 : normalize ((base ++ ["by-tag", "x", name]).dropLast ++
      relpath (base ++ ["downloads", name]) (base ++ ["by-tag", "x"])) = base ++ ["downloads", name] :=
    link_hop_resolves base "by-tag" "x" name hbase (by decide) (by decide)
      hname (by decide)
  have hop3 : normalize ((base ++ ["by-tag", "y", name]).dropLast ++
      relpath (base ++ ["downloads", name]) (base ++ ["by-tag", "y"])) = base ++ ["downloads", name] :=
    link_hop_resolves base "by-tag" "y" name hbase (by decide) (by decide)
      hname (by decide)
  have hop4 : normalize ((base ++ ["by-date", "2024-03", name]).dropLast ++
      relpath (base ++ ["downloads", name]) (base ++ ["by-date", "2024-03"])) = base ++ ["downloads", name] :=
    link_hop_resolves base "by-date" "2024-03" name hbase (by decide) (by decide)
      hname (by decide)
  refine ⟨by rw [hres], ?_⟩
  intro t ht
  simp only [List.mem_cons, List.not_mem_nil, or_false] at ht
  rw [hres]
  rcases ht with rfl | rfl | rfl | rfl
  · exact ⟨⟨relpath (base ++ ["downloads", name]) (base ++ ["by-source", "youtube"]), l1⟩,
      resolve_two_step _ _ _ _ bs l1 hop1 lp⟩
  · exact ⟨⟨relpath (base ++ ["downloads", name]) (base ++ ["by-tag", "x"]), l2⟩,
      resolve_two_step _ _ _ _ bs l2 hop2 lp⟩
  · exact ⟨⟨relpath (base ++ ["downloads", name]) (base ++ ["by-tag", "y"]), l3⟩,
      resolve_two_step _ _ _ _ bs l3 hop3 lp⟩
  · exact ⟨⟨relpath (base ++ ["downloads", name]) (base ++ ["by-date", "2024-03"]), l4⟩,
      resolve_two_step _ _ _ _ bs l4 hop4 lp⟩

/-- A filesystem with one real file for the C7 witness. -/
def fsC7 : Fs := [(["root", "downloads", "v.mp4"], .file [1, 2])]

/-- Witness for C7 at a concrete filesystem. -/
theorem placeAll_round_trip_witness :
    (organize_file fsC7 ["root"] ["root", "downloads", "v.mp4"] "youtube"
        ["x", "y"] ⟨2024, 3⟩ true true true).2
      = ⟨some true, some [("x", true), ("y", true)], some true⟩
  ∧ ∀ t ∈ [["root", "by-source", "youtube", "v.mp4"], ["root", "by-tag", "x", "v.mp4"],
      ["root", "by-tag", "y", "v.mp4"], ["root", "by-date", "2024-03", "v.mp4"]],
      (∃ r, lookupFs (organize_file fsC7 ["root"] ["root", "downloads", "v.mp4"]
          "youtube" ["x", "y"] ⟨2024, 3⟩ true true true).1 t
          = some (.symlink (.rel r)))
      ∧ resolvePath (organize_file fsC7 ["root"] ["root", "downloads", "v.mp4"]
          "youtube" ["x", "y"] ⟨2024, 3⟩ true true true).1
          ((organize_file fsC7 ["root"] ["root", "downloads", "v.mp4"]
            "youtube" ["x", "y"] ⟨2024, 3⟩ true true true).1.length + 1) t
          = some ["root", "downloads", "v.mp4"] :=
  placeAll_round_trip fsC7 ["root"] "v.mp4" [1, 2] (by decide) (by decide)
    (by decide)
    (by
      intro c h
      rw [show lookupFs fsC7 (["root"] ++ ["by-source", "youtube", "v.mp4"]) = none
        from rfl] at h
      exact Option.noConfusion h)
    (by
      intro c h
      rw [show lookupFs fsC7 (["root"] ++ ["by-tag", "x", "v.mp4"]) = none
        from rfl] at h
      exact Option.noConfusion h)
    (by
      intro c h
      rw [show lookupFs fsC7 (["root"] ++ ["by-tag", "y", "v.mp4"]) = none
        from rfl] at h
      exact Option.noConfusion h)
    (by
      intro c h
      rw [show lookupFs fsC7 (["root"] ++ ["by-date", "2024-03", "v.mp4"]) = none
        from rfl] at h
      exact Option.noConfusion h)

/-! ## C4: sweeping broken symlinks -/

/-- A path strictly below a directory (what `rglob` visits). -/
def underDir (d q : FsPath) : Bool := decide (d <+: q) && decide (d ≠ q)

/-- A broken symlink: the entry is a symlink and its target no longer
resolves. -/
def broken (f : Fs) (q : FsPath) : Bool :=
  isSymlinkAt f q && !(pathExists f q)

/-- `sweepStep` in terms of `broken`. -/
theorem sweepStep_eq (f : Fs) (p : FsPath) :
    sweepStep f p = if broken f p then fsRemove f p else f := rfl

/-- Membership in the visit list of one directory. -/
theorem mem_pathsUnder (f : Fs) (d q : FsPath) :
    q ∈ pathsUnder f d ↔ (q ∈ f.map Prod.fst ∧ (d <+: q) ∧ d ≠ q) := by
  unfold pathsUnder
  rw [List.mem_filter]
  simp

/-- A successful lookup means the key is stored. -/
theorem lookup_isSome_iff_mem_keys (f : Fs) (q : FsPath) :
    (lookupFs f q).isSome = true ↔ q ∈ f.map Prod.fst := by
  induction f with
  | nil => simp
  | cons kv rest ih =>
      rw [lookupFs_cons, List.map_cons, List.mem_cons]
      by_cases hk : kv.1 = q
      · simp [hk]
      · rw [if_neg hk, ih]
        constructor
        · intro h; exact Or.inr h
        · rintro (h | h)
          · exact absurd h.symm hk
          · exact h

/-- The one-hop discipline the pipeline maintains: a symlink's target is
never itself a symlink (placements point directly at real files). -/
def OneHop (f : Fs) : Prop :=
  ∀ q t, lookupFs f q = some (.symlink t) →
    ∀ e, lookupFs f (hopTarget q t) = some e → ∃ bsx, e = .file bsx

/-- `f` is `fs` with exactly the keys of `R` deleted. -/
def MinusSpec (fs : Fs) (R : List FsPath) (f : Fs) : Prop :=
  ∀ q, lookupFs f q = if q ∈ R then none else lookupFs fs q

/-- No removed key held a regular file. -/
def NoFiles (fs : Fs) (R : List FsPath) : Prop :=
  ∀ q ∈ R, ∀ bsx, lookupFs fs q ≠ some (.file bsx)

/-- Entries of the pruned filesystem come from the original. -/
theorem lookup_of_minus (fs f : Fs) (R : List FsPath) (q : FsPath) (e : FsEntry)
    (hm : MinusSpec fs R f) (h : lookupFs f q = some e) :
    lookupFs fs q = some e ∧ q ∉ R := by
  have h2 := hm q
  rw [h] at h2
  by_cases hq : q ∈ R
  · rw [if_pos hq] at h2; cases h2
  · rw [if_neg hq] at h2; exact ⟨h2.symm, hq⟩

/-- The one-hop discipline survives pruning. -/
theorem oneHop_of_minus (fs f : Fs) (R : List FsPath)
    (hm : MinusSpec fs R f) (h1 : OneHop fs) : OneHop f := by
  intro q t hq e he
  obtain ⟨hq', -⟩ := lookup_of_minus fs f R q _ hm hq
  obtain ⟨he', -⟩ := lookup_of_minus fs f R _ _ hm he
  exact h1 q t hq' e he'

/-- Resolution of a symlink under the one-hop discipline looks only at its
single hop target. -/
theorem pathExists_symlink (f : Fs) (q : FsPath) (t : LinkTarget)
    (hf1 : OneHop f) (hq : lookupFs f q = some (.symlink t)) :
    pathExists f q =
      (match lookupFs f (hopTarget q t) with
       | some (.file _) => true
       | _ => false) := by
  unfold pathExists
  obtain ⟨m, hm⟩ : ∃ m, f.length = m + 1 := by
    cases f with
    | nil => simp [lookupFs] at hq
    | cons a l => exact ⟨l.length, rfl⟩
  rw [hm]
  simp only [resolvePath, hq]
  cases hh : lookupFs f (hopTarget q t) with
  | none => simp only [resolvePath, hh, Option.isSome_none]
  | some e =>
      cases e with
      | file bsx => simp only [resolvePath, hh, Option.isSome_some]
      | symlink t2 =>
          obtain ⟨bsx, hbsx⟩ := hf1 q t hq _ hh
          cases hbsx

/-- Whether an entry is broken does not change while other symlinks are
being removed. -/
theorem broken_stable (fs f : Fs) (R : List FsPath)
    (h1 : OneHop fs) (hm : MinusSpec fs R f) (hok : NoFiles fs R)
    (q : FsPath) (e : FsEntry) (hq : lookupFs f q = some e) :
    broken f q = broken fs q := by
  obtain ⟨hq', -⟩ := lookup_of_minus fs f R q e hm hq
  cases e with
  | file bsx =>
      unfold broken isSymlinkAt
      rw [hq, hq']
      rfl
  | symlink t =>
      have hf1 : OneHop f := oneHop_of_minus fs f R hm h1
      unfold broken isSymlinkAt
      rw [hq, hq']
      rw [pathExists_symlink f q t hf1 hq, pathExists_symlink fs q t h1 hq']
      cases hh : lookupFs fs (hopTarget q t) with
      | none =>
          have : lookupFs f (hopTarget q t) = none := by
            rw [hm (hopTarget q t)]
            by_cases hr : hopTarget q t ∈ R
            · rw [if_pos hr]
            · rw [if_neg hr]; exact hh
          rw [this]
      | some e2 =>
          obtain ⟨bsx, hbsx⟩ := h1 q t hq' e2 hh
          subst hbsx
          have hnr : hopTarget q t ∉ R := by
            intro hr
            exact hok _ hr bsx hh
          have : lookupFs f (hopTarget q t) = some (.file bsx) := by
            rw [hm (hopTarget q t), if_neg hnr]
            exact hh
          rw [this]

/-- Folding the sweep step over any visit list removes exactly the visited
entries that were broken in the original filesystem. -/
theorem sweepStep_fold_spec (fs : Fs) (h1 : OneHop fs) :
    ∀ (ps R : List FsPath) (f : Fs), MinusSpec fs R f → NoFiles fs R →
      ∃ R', (∀ q, q ∈ R' ↔ (q ∈ R ∨ (q ∈ ps ∧ broken fs q = true)))
        ∧ MinusSpec fs R' (ps.foldl sweepStep f) ∧ NoFiles fs R' := by
  intro ps
  induction ps with
  | nil =>
      intro R f hm hok
      exact ⟨R, by simp, hm, hok⟩
  | cons p ps ih =>
      intro R f hm hok
      rw [List.foldl_cons]
      cases hl : lookupFs f p with
      | none =>
          have hstep : sweepStep f p = f := by
            rw [sweepStep_eq]
            have : broken f p = false := by
              unfold broken isSymlinkAt
              rw [hl]
              rfl
            rw [this]
            rfl
          rw [hstep]
          obtain ⟨R', hR', hm', hok'⟩ := ih R f hm hok
          refine ⟨R', ?_, hm', hok'⟩
          intro q
          rw [hR' q]
          constructor
          · rintro (h | ⟨hq, hb⟩)
            · exact Or.inl h
            · exact Or.inr ⟨List.mem_cons_of_mem _ hq, hb⟩
          · rintro (h | ⟨hq, hb⟩)
            · exact Or.inl h
            · rcases List.mem_cons.mp hq with rfl | hq'
              · have h2 := hm q
                rw [hl] at h2
                by_cases hr : q ∈ R
                · exact Or.inl hr
                · rw [if_neg hr] at h2
                  have : isSymlinkAt fs q = false := by
                    unfold isSymlinkAt
                    rw [← h2]
                  unfold broken at hb
                  rw [this] at hb
                  cases hb
              · exact Or.inr ⟨hq', hb⟩
      | some e =>
          obtain ⟨hfse, hpR⟩ := lookup_of_minus fs f R p e hm hl
          have hbr : broken f p = broken fs p :=
            broken_stable fs f R h1 hm hok p e hl
          cases hbfs : broken fs p with
          | false =>
              have hstep : sweepStep f p = f := by
                rw [sweepStep_eq, hbr, hbfs]
                rfl
              rw [hstep]
              obtain ⟨R', hR', hm', hok'⟩ := ih R f hm hok
              refine ⟨R', ?_, hm', hok'⟩
              intro q
              rw [hR' q]
              constructor
              · rintro (h | ⟨hq, hb⟩)
                · exact Or.inl h
                · exact Or.inr ⟨List.mem_cons_of_mem _ hq, hb⟩
              · rintro (h | ⟨hq, hb⟩)
                · exact Or.inl h
                · rcases List.mem_cons.mp hq with rfl | hq'
                  · rw [hb] at hbfs; cases hbfs
                  · exact Or.inr ⟨hq', hb⟩
          | true =>
              have hstep : sweepStep f p = fsRemove f p := by
                rw [sweepStep_eq, hbr, hbfs]
                rfl
              rw [hstep]
              have hm1 : MinusSpec fs (p :: R) (fsRemove f p) := by
                intro q
                rw [lookupFs_fsRemove]
                by_cases hq : q = p
                · subst hq
                  rw [if_pos rfl, if_pos (List.mem_cons_self _ _)]
                · rw [if_neg hq, hm q]
                  by_cases hr : q ∈ R
                  · rw [if_pos hr, if_pos (List.mem_cons_of_mem _ hr)]
                  · rw [if_neg hr, if_neg (by
                      intro hc
                      rcases List.mem_cons.mp hc with h | h
                      · exact hq h
                      · exact hr h)]
              have hok1 : NoFiles fs (p :: R) := by
                intro q hq bsx hcontra
                rcases List.mem_cons.mp hq with rfl | hq'
                · have : isSymlinkAt fs q = true := by
                    unfold broken at hbfs
                    exact (Bool.and_eq_true _ _).mp hbfs |>.1
                  unfold isSymlinkAt at this
                  rw [hcontra] at this
                  cases this
                · exact hok q hq' bsx hcontra
              obtain ⟨R', hR', hm', hok'⟩ := ih (p :: R) (fsRemove f p) hm1 hok1
              refine ⟨R', ?_, hm', hok'⟩
              intro q
              rw [hR' q]
              constructor
              · rintro (h | ⟨hq, hb⟩)
                · rcases List.mem_cons.mp h with rfl | h'
                  · exact Or.inr ⟨List.mem_cons_self _ _, hbfs⟩
                  · exact Or.inl h'
                · exact Or.inr ⟨List.mem_cons_of_mem _ hq, hb⟩
              · rintro (h | ⟨hq, hb⟩)
                · exact Or.inl (List.mem_cons_of_mem _ h)
                · rcases List.mem_cons.mp hq with rfl | hq'
                  · exact Or.inl (List.mem_cons_self _ _)
                  · exact Or.inr ⟨hq', hb⟩

/-- A path lies strictly under one of the three organization namespaces. -/
def underRoots (base : FsPath) (q : FsPath) : Bool :=
  underDir (base ++ ["by-source"]) q || underDir (base ++ ["by-tag"]) q ||
    underDir (base ++ ["by-date"]) q

/-- Boolean/propositional reading of `underDir`. -/
theorem underDir_eq_true (d q : FsPath) :
    underDir d q = true ↔ ((d <+: q) ∧ d ≠ q) := by
  unfold underDir
  simp

/-- C4 (amended): invoked with no argument and under the one-hop discipline,
`remove_broken_symlinks` visits all three namespaces, removes exactly the
symbolic links whose targets no longer resolve, leaves every other entry —
in particular every valid symlink — untouched, and returns `None` rather
than a removal count. -/
theorem sweepBroken_spec (fs : Fs) (base : FsPath) (h1 : OneHop fs) :
    (remove_broken_symlinks fs base none).2 = none
  ∧ ∀ q, lookupFs (remove_broken_symlinks fs base none).1 q =
      (if underRoots base q && broken fs q then none else lookupFs fs q) := by
  constructor
  · rfl
  · have hm0 : MinusSpec fs [] fs := by
      intro q
      simp
    have hok0 : NoFiles fs [] := by
      intro q hq
      cases hq
    obtain ⟨R1, hR1, hm1, hok1⟩ := sweepStep_fold_spec fs h1
      (pathsUnder fs (base ++ ["by-source"])) [] fs hm0 hok0
    obtain ⟨R2, hR2, hm2, hok2⟩ := sweepStep_fold_spec fs h1
      (pathsUnder ((pathsUnder fs (base ++ ["by-source"])).foldl sweepStep fs)
        (base ++ ["by-tag"])) R1
      ((pathsUnder fs (base ++ ["by-source"])).foldl sweepStep fs) hm1 hok1
    obtain ⟨R3, hR3, hm3, hok3⟩ := sweepStep_fold_spec fs h1
      (pathsUnder ((pathsUnder ((pathsUnder fs (base ++ ["by-source"])).foldl
          sweepStep fs) (base ++ ["by-tag"])).foldl sweepStep
          ((pathsUnder fs (base ++ ["by-source"])).foldl sweepStep fs))
        (base ++ ["by-date"])) R2
      ((pathsUnder ((pathsUnder fs (base ++ ["by-source"])).foldl sweepStep fs)
          (base ++ ["by-tag"])).foldl sweepStep
          ((pathsUnder fs (base ++ ["by-source"])).foldl sweepStep fs)) hm2 hok2
    intro q
    show lookupFs ((pathsUnder ((pathsUnder ((pathsUnder fs
        (base ++ ["by-source"])).foldl sweepStep fs) (base ++ ["by-tag"])).foldl
        sweepStep ((pathsUnder fs (base ++ ["by-source"])).foldl sweepStep fs))
        (base ++ ["by-date"])).foldl sweepStep
        ((pathsUnder ((pathsUnder fs (base ++ ["by-source"])).foldl sweepStep fs)
          (base ++ ["by-tag"])).foldl sweepStep
          ((pathsUnder fs (base ++ ["by-source"])).foldl sweepStep fs))) q = _
    rw [hm3 q]
    cases hbq : broken fs q with
    | false =>
        have hq3 : q ∉ R3 := by
          rw [hR3 q]
          rintro (h | ⟨-, hbb⟩)
          · rw [hR2 q] at h
            rcases h with h | ⟨-, hbb⟩
            · rw [hR1 q] at h
              rcases h with h | ⟨-, hbb⟩
              · cases h
              · rw [hbq] at hbb; cases hbb
            · rw [hbq] at hbb; cases hbb
          · rw [hbq] at hbb; cases hbb
        rw [if_neg hq3, Bool.and_false]
        rfl
    | true =>
        rw [Bool.and_true]
        cases hu : underRoots base q with
        | false =>
            have hq3 : q ∉ R3 := by
              rw [hR3 q]
              have hund : ∀ (d : FsPath) (f : Fs), q ∈ pathsUnder f d →
                  underDir d q = true := by
                intro d f hmem
                rw [underDir_eq_true]
                exact (mem_pathsUnder f d q).mp hmem |>.2
              rintro (h | ⟨hq, -⟩)
              · rw [hR2 q] at h
                rcases h with h | ⟨hq, -⟩
                · rw [hR1 q] at h
                  rcases h with h | ⟨hq, -⟩
                  · cases h
                  · have := hund _ _ hq
                    simp [underRoots, this] at hu
                · have := hund _ _ hq
                  simp [underRoots, this] at hu
              · have := hund _ _ hq
                simp [underRoots, this] at hu
            rw [if_neg hq3]
            rfl
        | true =>
            cases hlq : lookupFs fs q with
            | none =>
                by_cases h3 : q ∈ R3
                · rw [if_pos h3]; rfl
                · rw [if_neg h3]; rfl
            | some e =>
                have hkeys : q ∈ fs.map Prod.fst := by
                  rw [← lookup_isSome_iff_mem_keys, hlq]
                  rfl
                have hq3 : q ∈ R3 := by
                  simp only [underRoots, Bool.or_eq_true] at hu
                  rcases hu with (hu1 | hu2) | hu3
                  · rw [underDir_eq_true] at hu1
                    have hps1 : q ∈ pathsUnder fs (base ++ ["by-source"]) :=
                      (mem_pathsUnder _ _ _).mpr ⟨hkeys, hu1⟩
                    rw [hR3 q, hR2 q, hR1 q]
                    exact Or.inl (Or.inl (Or.inr ⟨hps1, hbq⟩))
                  · rw [underDir_eq_true] at hu2
                    by_cases hr1 : q ∈ R1
                    · rw [hR3 q, hR2 q]
                      exact Or.inl (Or.inl hr1)
                    · have hkeys1 : q ∈ ((pathsUnder fs
                          (base ++ ["by-source"])).foldl sweepStep fs).map
                          Prod.fst := by
                        rw [← lookup_isSome_iff_mem_keys, hm1 q, if_neg hr1,
                          hlq]
                        rfl
                      have hps2 : q ∈ pathsUnder ((pathsUnder fs
                          (base ++ ["by-source"])).foldl sweepStep fs)
                          (base ++ ["by-tag"]) :=
                        (mem_pathsUnder _ _ _).mpr ⟨hkeys1, hu2⟩
                      rw [hR3 q, hR2 q]
                      exact Or.inl (Or.inr ⟨hps2, hbq⟩)
                  · rw [underDir_eq_true] at hu3
                    by_cases hr2 : q ∈ R2
                    · rw [hR3 q]
                      exact Or.inl hr2
                    · have hkeys2 : q ∈ ((pathsUnder ((pathsUnder fs
                          (base ++ ["by-source"])).foldl sweepStep fs)
                          (base ++ ["by-tag"])).foldl sweepStep
                          ((pathsUnder fs (base ++ ["by-source"])).foldl
                            sweepStep fs)).map Prod.fst := by
                        rw [← lookup_isSome_iff_mem_keys, hm2 q, if_neg hr2,
                          hlq]
                        rfl
                      have hps3 : q ∈ pathsUnder _ (base ++ ["by-date"]) :=
                        (mem_pathsUnder _ _ _).mpr ⟨hkeys2, hu3⟩
                      rw [hR3 q]
                      exact Or.inr ⟨hps3, hbq⟩
                rw [if_pos hq3]
                rfl

/-- A successful lookup yields a stored pair. -/
theorem mem_of_lookup (f : Fs) (q : FsPath) (e : FsEntry)
    (h : lookupFs f q = some e) : (q, e) ∈ f := by
  induction f with
  | nil => cases h
  | cons kv rest ih =>
      rw [lookupFs_cons] at h
      by_cases hk : kv.1 = q
      · rw [if_pos hk] at h
        injection h with h2
        exact List.mem_cons.mpr (Or.inl (by rw [← hk, ← h2]))
      · rw [if_neg hk] at h
        exact List.mem_cons_of_mem _ (ih h)

/-- A decidable (per-entry) check implying the one-hop discipline. -/
theorem oneHop_of_all (f : Fs)
    (h : f.all (fun kv =>
      match kv.2 with
      | .symlink t =>
          match lookupFs f (hopTarget kv.1 t) with
          | some (.file _) => true
          | none => true
          | some (.symlink _) => false
      | .file _ => true) = true) : OneHop f := by
  intro q t hq e he
  have hmem : (q, FsEntry.symlink t) ∈ f := mem_of_lookup f q _ hq
  have hcheck := List.all_eq_true.mp h _ hmem
  cases e with
  | file bsx => exact ⟨bsx, rfl⟩
  | symlink t2 =>
      simp only at hcheck
      rw [he] at hcheck
      cases hcheck

/-- A filesystem with a real file, a valid placement symlink, and a broken
placement symlink (its target was deleted). -/
def fsC4 : Fs :=
  [ (["root", "downloads", "a.mp4"], .file [1]),
    (["root", "by-source", "youtube", "a.mp4"],
      .symlink (.rel ["..", "..", "downloads", "a.mp4"])),
    (["root", "by-source", "youtube", "gone.mp4"],
      .symlink (.rel ["..", "..", "downloads", "gone.mp4"])) ]

/-- C4 counterexample: at a filesystem with exactly one broken symlink, the
sweep removes it (one link removed, the valid symlink and the real file are
kept) but the function's Python return value is `None`, not the count `1`
the claim requires. -/
theorem sweepBroken_no_count :
    (remove_broken_symlinks fsC4 ["root"] none).2 = none
  ∧ fsC4.length - (remove_broken_symlinks fsC4 ["root"] none).1.length = 1
  ∧ lookupFs (remove_broken_symlinks fsC4 ["root"] none).1
      ["root", "by-source", "youtube", "gone.mp4"] = none
  ∧ lookupFs (remove_broken_symlinks fsC4 ["root"] none).1
      ["root", "by-source", "youtube", "a.mp4"]
      = some (.symlink (.rel ["..", "..", "downloads", "a.mp4"]))
  ∧ lookupFs (remove_broken_symlinks fsC4 ["root"] none).1
      ["root", "downloads", "a.mp4"] = some (.file [1])
  ∧ (remove_broken_symlinks fsC4 ["root"] none).2 ≠ some 1 := by
  decide

/-- Witness for C4's amended theorem at a concrete filesystem, instantiated
at the broken link's path. -/
theorem sweepBroken_spec_witness :
    (remove_broken_symlinks fsC4 ["root"] none).2 = none
  ∧ lookupFs (remove_broken_symlinks fsC4 ["root"] none).1
      ["root", "by-source", "youtube", "gone.mp4"]
      = (if underRoots ["root"] ["root", "by-source", "youtube", "gone.mp4"] &&
            broken fsC4 ["root", "by-source", "youtube", "gone.mp4"] then none
         else lookupFs fsC4 ["root", "by-source", "youtube", "gone.mp4"]) :=
  ⟨(sweepBroken_spec fsC4 ["root"] (oneHop_of_all fsC4 (by decide))).1,
   (sweepBroken_spec fsC4 ["root"] (oneHop_of_all fsC4 (by decide))).2 _⟩

end Fftpeg
